import Mathlib

set_option maxHeartbeats 1000000

/-!
Verification of the spectrum-computation and parameter-sweep engine of
`scqubits/core/qubit_base.py` (class `QubitBaseClass`), against its
natural-language specification.

Embedding conventions.  Floating-point energies and parameter values are
embedded as rationals; complex amplitudes as pairs of rationals (`CNum`).
A qubit instance is split into its immutable physics (`QubitSpec`: the
Hamiltonian as a function of the mutable attributes, the operator-returning
methods, the init-parameter names) and its mutable attribute state
(`Params`).  Python attribute mutation is threaded explicitly: a method
that can both mutate `self` and raise becomes a function
`Params → Except Err α × Params`, where the second component is the state
of the object at the moment the call returns or the exception propagates.
The external dense eigensolver (`scipy.linalg.eigh`), the result container
(`scqubits.core.storage.SpectrumData`), the helpers of
`scqubits.utils.spectrum_utils` and the composite-sweep collaborator
(`HilbertSpace` + `ParameterSweep`) are not part of the source under
review; where they are needed they are modelled from the spec, as marked
in their doc comments.
-/

/-- Complex numbers with rational components; embeds the complex matrix
entries handled by the numerical backend. -/
@[ext]
structure CNum where
  re : ℚ
  im : ℚ
deriving DecidableEq

namespace CNum

instance : Zero CNum := ⟨⟨0, 0⟩⟩

instance : One CNum := ⟨⟨1, 0⟩⟩

instance : Add CNum := ⟨fun x y => ⟨x.re + y.re, x.im + y.im⟩⟩

instance : Neg CNum := ⟨fun x => ⟨-x.re, -x.im⟩⟩

instance : Mul CNum := ⟨fun x y => ⟨x.re * y.re - x.im * y.im, x.re * y.im + x.im * y.re⟩⟩

@[simp] theorem zero_re : (0 : CNum).re = 0 := rfl

@[simp] theorem zero_im : (0 : CNum).im = 0 := rfl

@[simp] theorem one_re : (1 : CNum).re = 1 := rfl

@[simp] theorem one_im : (1 : CNum).im = 0 := rfl

@[simp] theorem add_re (x y : CNum) : (x + y).re = x.re + y.re := rfl

@[simp] theorem add_im (x y : CNum) : (x + y).im = x.im + y.im := rfl

@[simp] theorem neg_re (x : CNum) : (-x).re = -x.re := rfl

@[simp] theorem neg_im (x : CNum) : (-x).im = -x.im := rfl

@[simp] theorem mul_re (x y : CNum) : (x * y).re = x.re * y.re - x.im * y.im := rfl

@[simp] theorem mul_im (x y : CNum) : (x * y).im = x.re * y.im + x.im * y.re := rfl

instance : CommRing CNum where
  add_assoc x y z := by ext <;> simp <;> ring
  zero_add x := by ext <;> simp
  add_zero x := by ext <;> simp
  add_comm x y := by ext <;> simp <;> ring
  left_distrib x y z := by ext <;> simp <;> ring
  right_distrib x y z := by ext <;> simp <;> ring
  zero_mul x := by ext <;> simp
  mul_zero x := by ext <;> simp
  mul_assoc x y z := by ext <;> simp <;> ring
  one_mul x := by ext <;> simp
  mul_one x := by ext <;> simp
  mul_comm x y := by ext <;> simp <;> ring
  neg_add_cancel x := by ext <;> simp
  nsmul := nsmulRec
  zsmul := zsmulRec

instance : StarRing CNum where
  star x := ⟨x.re, -x.im⟩
  star_involutive x := by ext <;> simp
  star_mul x y := by ext <;> simp <;> ring
  star_add x y := by ext <;> simp <;> ring

@[simp] theorem star_re (x : CNum) : (star x).re = x.re := rfl

@[simp] theorem star_im (x : CNum) : (star x).im = -x.im := rfl

end CNum

/-- The mutable named numeric attributes of a qubit instance (the shared
state that `setattr`/`getattr` act on in the Python source). -/
def Params : Type := String → ℚ

/-- Embeds Python `getattr(self, name)` for a numeric attribute. -/
def pget (p : Params) (name : String) : ℚ := p name

/-- Embeds Python `setattr(self, name, val)` for a numeric attribute. -/
def pset (p : Params) (name : String) (val : ℚ) : Params :=
  fun m => if m = name then val else p m

/-- The error taxonomy of the spec (§7); a raised Python exception is
embedded as an `Except.error` carrying one of these. -/
inductive Err where
  | dimensionError
  | numericalError
  | unknownAttributeError
  | unknownOperatorError
  | configurationError
deriving DecidableEq

/-- Modelled from the spec: the dense Hermitian eigensolver collaborator
behind `scipy.linalg.eigh` (spec §4.1, §6), abstract except that a valid
request returns exactly the requested number of eigenvalues and
eigenvectors.  The repository code under review never relies on more. -/
structure EigenSolver where
  solve : List (List CNum) → ℕ → List ℚ × List (List CNum)
  evals_len : ∀ m k, (solve m k).1.length = k
  evecs_len : ∀ m k, (solve m k).2.length = k

/-- Modelled from the spec: `scipy.linalg.eigh(mat, eigvals=(0, k-1))` —
the solve fails when the requested eigenvalue index range is not valid for
the matrix dimension (spec §4.1: `DimensionError` when the requested count
exceeds the Hilbert-space dimension). -/
def eigh (S : EigenSolver) (m : List (List CNum)) (k : ℕ) :
    Except Err (List ℚ × List (List CNum)) :=
  if 1 ≤ k ∧ k ≤ m.length then Except.ok (S.solve m k) else Except.error Err.dimensionError

/-- A concrete qubit type: the Hamiltonian matrix as a function of the
mutable attributes (`hamiltonian()`), the zero-argument operator-returning
methods reachable through `getattr` string dispatch, and the
`_init_params` name list used by `get_initdata`. -/
structure QubitSpec where
  ham : Params → List (List CNum)
  operators : String → Option (Params → List (List CNum))
  initParams : List String

/-- Embeds `hilbertdim()`: the dimension of the Hilbert space, i.e. the
size of the Hamiltonian matrix. -/
def QubitSpec.hilbertdim (Q : QubitSpec) (p : Params) : ℕ := (Q.ham p).length

/-- Embeds `get_initdata`: the snapshot mapping of named parameter values. -/
def get_initdata (Q : QubitSpec) (p : Params) : List (String × ℚ) :=
  Q.initParams.map fun n => (n, pget p n)

/-- Embeds `np.sort` on a one-dimensional float array (ascending). -/
def npSort (l : List ℚ) : List ℚ := l.insertionSort (· ≤ ·)

/-- Key order on eigenvalue/eigenvector pairs: compare the eigenvalue. -/
def keyLe (a b : ℚ × List CNum) : Prop := a.1 ≤ b.1

instance : DecidableRel keyLe := fun a b => inferInstanceAs (Decidable (a.1 ≤ b.1))

instance : IsTotal (ℚ × List CNum) keyLe := ⟨fun a b => le_total a.1 b.1⟩

instance : IsTrans (ℚ × List CNum) keyLe := ⟨fun _ _ _ h h2 => le_trans h h2⟩

/-- Modelled from the spec: `order_eigensystem` from
`scqubits.utils.spectrum_utils` (absent from `src/`): reorders the
eigenvalues ascending together with their matching eigenvectors (§4.1). -/
def order_eigensystem (evals : List ℚ) (evecs : List (List CNum)) :
    List ℚ × List (List CNum) :=
  let pairs := (evals.zip evecs).insertionSort keyLe
  (pairs.map Prod.fst, pairs.map Prod.snd)

/-- Modelled from the spec: `recast_esys_mapdata` from
`scqubits.utils.spectrum_utils` (absent from `src/`): splits the mapped
per-point eigensystems into the eigenvalue table and the heterogeneous
eigenstate list (§4.2). -/
def recast_esys_mapdata (mapdata : List (List ℚ × List (List CNum))) :
    List (List ℚ) × List (List (List CNum)) :=
  (mapdata.map Prod.fst, mapdata.map Prod.snd)

/-- Modelled from the spec: a single matrix element, the inner-product
value of operator `op` between eigenstates `v` and `w` (spec §4.4 and
glossary), summing over the array index ranges. -/
def innerElem (op : List (List CNum)) (v w : List CNum) : CNum :=
  ∑ a ∈ Finset.range v.length, ∑ b ∈ Finset.range w.length,
    star (v.getD a 0) * ((op.getD a []).getD b 0) * w.getD b 0

/-- Modelled from the spec: `get_matrixelement_table` from
`scqubits.utils.spectrum_utils` (absent from `src/`): the table of matrix
elements of `op` between all pairs of the given eigenstates (§4.4). -/
def get_matrixelement_table (op : List (List CNum)) (evecs : List (List CNum)) :
    List (List CNum) :=
  evecs.map fun vi => evecs.map fun vj => innerElem op vi vj

/-- Embeds `QubitBaseClass._evals_calc`: dense Hamiltonian, restricted
eigenvalue solve, `np.sort` of the eigenvalues. -/
def QubitSpec.evalsCalc (Q : QubitSpec) (S : EigenSolver) (evals_count : ℕ)
    (p : Params) : Except Err (List ℚ) :=
  (eigh S (Q.ham p) evals_count).map fun r => npSort r.1

/-- Embeds `QubitBaseClass._esys_calc`: dense Hamiltonian, restricted
eigenpair solve, `order_eigensystem`. -/
def QubitSpec.esysCalc (Q : QubitSpec) (S : EigenSolver) (evals_count : ℕ)
    (p : Params) : Except Err (List ℚ × List (List CNum)) :=
  (eigh S (Q.ham p) evals_count).map fun r => order_eigensystem r.1 r.2

/-- Embeds `QubitBaseClass.eigenvals` (file output and
`return_spectrumdata` are plotting/serialization glue, not modelled).  The
second component is the attribute state when the call returns or raises;
the body performs no attribute writes. -/
def eigenvals (Q : QubitSpec) (S : EigenSolver) (evals_count : ℕ) (p : Params) :
    Except Err (List ℚ) × Params :=
  (Q.evalsCalc S evals_count p, p)

/-- Embeds `QubitBaseClass.eigensys` (same conventions as `eigenvals`). -/
def eigensys (Q : QubitSpec) (S : EigenSolver) (evals_count : ℕ) (p : Params) :
    Except Err (List ℚ × List (List CNum)) × Params :=
  (Q.esysCalc S evals_count p, p)

/-- Embeds `QubitBaseClass.matrixelement_table`: when no eigenvectors are
supplied the eigensystem is computed first; only then is the operator name
resolved through `getattr` string dispatch, which fails when `self` has no
method of that name. -/
def matrixelement_table (Q : QubitSpec) (S : EigenSolver) (operator : String)
    (evecs : Option (List (List CNum))) (evals_count : ℕ) (p : Params) :
    Except Err (List (List CNum)) × Params :=
  let evecsE : Except Err (List (List CNum)) :=
    match evecs with
    | Option.some V => Except.ok V
    | Option.none => (Q.esysCalc S evals_count p).map Prod.snd
  match evecsE with
  | Except.error e => (Except.error e, p)
  | Except.ok V =>
    match Q.operators operator with
    | Option.none => (Except.error Err.unknownOperatorError, p)
    | Option.some f => (Except.ok (get_matrixelement_table (f p) V), p)

/-- Sequential map over parameter values with Python mutation semantics:
each step may mutate `self` and may raise; on the first raise the
remaining values are not visited and the state at the raise propagates.
This embeds builtin `map` over a function closed over `self`
(`worker_count = 1`). -/
def seqMapE {α : Type} (f : Params → ℚ → Except Err α × Params) :
    Params → List ℚ → Except Err (List α) × Params
  | p, [] => (Except.ok [], p)
  | p, v :: vs =>
    match f p v with
    | (Except.error e, p1) => (Except.error e, p1)
    | (Except.ok a, p1) =>
      match seqMapE f p1 vs with
      | (Except.ok as, p2) => (Except.ok (a :: as), p2)
      | (Except.error e, p2) => (Except.error e, p2)

/-- Collects a list of per-point outcomes: the whole computation fails
with the first failure, otherwise yields the list of results in input
order. -/
def collectExcept {α : Type} : List (Except Err α) → Except Err (List α)
  | [] => Except.ok []
  | Except.error e :: _ => Except.error e
  | Except.ok a :: rest =>
    match collectExcept rest with
    | Except.ok as => Except.ok (a :: as)
    | Except.error e => Except.error e

/-- Modelled from the spec: the parallel-map collaborator selected by
`get_map_method` for `worker_count > 1` (spec §5, §6): every worker
receives an independent copy of the system state, results are recorded at
their input index, and the main-process state is not mutated. -/
def parMapE {α : Type} (f : Params → ℚ → Except Err α × Params) (p : Params)
    (vals : List ℚ) : Except Err (List α) × Params :=
  (collectExcept (vals.map fun v => (f p v).1), p)

/-- Embeds `target_map = get_map_method(num_cpus)` followed by
`list(target_map(func, param_vals))`: plain sequential mapping for one
worker, the parallel collaborator otherwise. -/
def sweepMap {α : Type} (f : Params → ℚ → Except Err α × Params) (num_cpus : ℕ)
    (p : Params) (vals : List ℚ) : Except Err (List α) × Params :=
  if num_cpus ≤ 1 then seqMapE f p vals else parMapE f p vals

/-- Embeds `QubitBaseClass._evals_for_paramval`: set the attribute, then
compute eigenvalues on the mutated instance. -/
def evalsForParamval (Q : QubitSpec) (S : EigenSolver) (param_name : String)
    (evals_count : ℕ) (p : Params) (paramval : ℚ) : Except Err (List ℚ) × Params :=
  eigenvals Q S evals_count (pset p param_name paramval)

/-- Embeds `QubitBaseClass._esys_for_paramval`: set the attribute, then
compute the eigensystem on the mutated instance. -/
def esysForParamval (Q : QubitSpec) (S : EigenSolver) (param_name : String)
    (evals_count : ℕ) (p : Params) (paramval : ℚ) :
    Except Err (List ℚ × List (List CNum)) × Params :=
  eigensys Q S evals_count (pset p param_name paramval)

/-- Transition argument of the dispersion entry points: either a bare
`(i, j)` tuple of ints or a tuple of such tuples (the dynamic
`Union[Tuple[int], Tuple[Tuple[int], ...]]` of the source). -/
inductive TransArg where
  | single (ij : ℕ × ℕ)
  | seq (ts : List (ℕ × ℕ))
deriving DecidableEq

/-- Levels argument of the dispersion entry points: either a bare int or
a tuple of ints. -/
inductive LevelsArg where
  | int (n : ℕ)
  | tup (ls : List ℕ)
deriving DecidableEq

/-- Labels stored on a dispersion result (`labels=levels or transitions`). -/
inductive SpecLabels where
  | levels (ls : List ℕ)
  | transitions (ts : TransArg)
  | none
deriving DecidableEq

/-- Energy data held by a result container: the 2-D table of a sweep or
the 3-D bare-energy cube of a dispersion computation (the Python container
holds whichever ndarray it is given). -/
inductive EnergyData where
  | table (t : List (List ℚ))
  | cube (c : List (List (List ℚ)))
deriving DecidableEq

/-- Modelled from the spec: the `SpectrumData` result container from
`scqubits.core.storage` (absent from `src/`): energy data, the snapshot of
system parameters, the swept-parameter name and values, and the optional
state, matrix-element and dispersion tables (spec §3, SpectrumContainer). -/
structure SpectrumData where
  energy_table : EnergyData
  system_params : List (String × ℚ)
  param_name : String
  param_vals : List ℚ
  state_table : Option (List (List (List CNum))) := Option.none
  matrixelem_table : Option (List (List (List CNum))) := Option.none
  labels : SpecLabels := SpecLabels.none
  dispersion : Option (List (List ℚ)) := Option.none
deriving DecidableEq

/-- Embeds `QubitBaseClass.get_spectrum_vs_paramvals`: snapshot the swept
attribute, map the per-point solve over the values (sequentially or via
the parallel collaborator), optionally subtract each row by its own first
entry, restore the attribute, and package the result.  File output and
progress reporting are plotting/serialization glue, not modelled. -/
def get_spectrum_vs_paramvals (Q : QubitSpec) (S : EigenSolver) (param_name : String)
    (param_vals : List ℚ) (evals_count : ℕ) (subtract_ground get_eigenstates : Bool)
    (num_cpus : ℕ) (p : Params) : Except Err SpectrumData × Params :=
  let previous_paramval := pget p param_name
  let mapped : Except Err (List (List ℚ) × Option (List (List (List CNum)))) × Params :=
    if get_eigenstates then
      match sweepMap (esysForParamval Q S param_name evals_count) num_cpus p param_vals with
      | (Except.error e, p1) => (Except.error e, p1)
      | (Except.ok mapdata, p1) =>
        (Except.ok ((recast_esys_mapdata mapdata).1,
          Option.some (recast_esys_mapdata mapdata).2), p1)
    else
      match sweepMap (evalsForParamval Q S param_name evals_count) num_cpus p param_vals with
      | (Except.error e, p1) => (Except.error e, p1)
      | (Except.ok evtab, p1) => (Except.ok (evtab, Option.none), p1)
  match mapped with
  | (Except.error e, p1) => (Except.error e, p1)
  | (Except.ok (evtab, sttab), p1) =>
    let evtab2 := if subtract_ground
      then evtab.map (fun row => row.map (· - row.headD 0)) else evtab
    let p2 := pset p1 param_name previous_paramval
    (Except.ok { energy_table := EnergyData.table evtab2
                 system_params := get_initdata Q p2
                 param_name := param_name
                 param_vals := param_vals
                 state_table := sttab }, p2)

/-- Embeds `np.linspace(0.0, 1.0, n)`. -/
def linspace01 (n : ℕ) : List ℚ :=
  if n = 1 then [0] else (List.range n).map fun i : ℕ => (i : ℚ) / ((n : ℚ) - 1)

/-- Python truthiness of the `levels` argument (`not levels`): `None`, the
empty tuple and the bare int `0` are falsy. -/
def levelsTruthy : Option LevelsArg → Bool
  | Option.none => false
  | Option.some (LevelsArg.int n) => n != 0
  | Option.some (LevelsArg.tup ls) => !ls.isEmpty

/-- Embeds `np.max(transitions)` over the nested int tuple.  (On an empty
tuple `np.max` raises; this total model returns 0 there, a case no claim
exercises.) -/
def TransArg.npMax : TransArg → ℕ
  | TransArg.single ij => max ij.1 ij.2
  | TransArg.seq ts => ts.foldl (fun acc ij => max acc (max ij.1 ij.2)) 0

/-- Embeds `np.max(levels)` (same remark about the empty tuple). -/
def levelsNpMax : Option LevelsArg → ℕ
  | Option.none => 0
  | Option.some (LevelsArg.int n) => n
  | Option.some (LevelsArg.tup ls) => ls.foldl max 0

/-- Maximum of a nonempty float array (`np.max` along no axis); 0 on the
empty list, which `np.max` rejects. -/
def listMax : List ℚ → ℚ
  | [] => 0
  | x :: xs => xs.foldl max x

/-- Minimum of a nonempty float array. -/
def listMin : List ℚ → ℚ
  | [] => 0
  | x :: xs => xs.foldl min x

/-- Embeds `np.max(A, axis=0)` on a rectangular 2-D array: entry `k` is
the maximum of column `k`. -/
def npMaxAxis0 (A : List (List ℚ)) : List ℚ :=
  (List.range (A.headD []).length).map fun k => listMax (A.map fun row => row.getD k 0)

/-- Embeds `np.min(A, axis=0)`. -/
def npMinAxis0 (A : List (List ℚ)) : List ℚ :=
  (List.range (A.headD []).length).map fun k => listMin (A.map fun row => row.getD k 0)

/-- One cell of the dispersion grid: `update_func(disp_val, sweep_val)`
sets both attributes on `self`, then the bare eigenvalues of the (single)
subsystem are computed there. -/
def dispersionCell (Q : QubitSpec) (S : EigenSolver) (dispersion_name param_name : String)
    (evals_count : ℕ) (s : ℚ) (p : Params) (v : ℚ) : Except Err (List ℚ) × Params :=
  let p1 := pset (pset p dispersion_name s) param_name v
  (Q.evalsCalc S evals_count p1, p1)

/-- Modelled from the spec: the nested bare-energy sweep that
`_compute_dispersion` delegates to `ParameterSweep` (absent from `src/`):
for every induced sample and every swept value both attributes are set and
the lowest `max_level+1` eigenvalues are computed, giving the cube indexed
`[induced_sample][swept_index][level]` (spec §4.3); mutation of `self`
persists across grid points and past a raise. -/
def bareSweep (Q : QubitSpec) (S : EigenSolver) (dispersion_name param_name : String)
    (samples vals : List ℚ) (evals_count : ℕ) (p : Params) :
    Except Err (List (List (List ℚ))) × Params :=
  seqMapE (fun q s => seqMapE (dispersionCell Q S dispersion_name param_name evals_count s) q vals)
    p samples

/-- Embeds `QubitBaseClass._compute_dispersion`: snapshot both attributes,
run the nested bare-energy sweep over `linspace(0,1,point_count) ×
param_vals`, form per-transition (or per-level) max-minus-min spreads over
the induced axis, then restore both attributes.  A `TypeError` from
unpacking a bare-int argument in the loops is embedded as
`configurationError`. -/
def computeDispersion (Q : QubitSpec) (S : EigenSolver)
    (dispersion_name param_name : String) (param_vals : List ℚ)
    (transitions : TransArg) (levels : Option LevelsArg) (point_count : ℕ)
    (p : Params) : Except Err (List (List (List ℚ)) × List (List ℚ)) × Params :=
  let previous_dispval := pget p dispersion_name
  let previous_paramval := pget p param_name
  let max_level := if levelsTruthy levels then levelsNpMax levels else transitions.npMax
  match bareSweep Q S dispersion_name param_name (linspace01 point_count) param_vals
      (max_level + 1) p with
  | (Except.error e, p1) => (Except.error e, p1)
  | (Except.ok eigenenergies, p1) =>
    let dresult : Except Err (List (List ℚ)) :=
      match levels with
      | Option.none =>
        match transitions with
        | TransArg.single _ => Except.error Err.configurationError
        | TransArg.seq ts =>
          Except.ok (ts.map fun ij =>
            let energy_ij := eigenenergies.map fun plane =>
              plane.map fun row => row.getD ij.1 0 - row.getD ij.2 0
            List.zipWith (· - ·) (npMaxAxis0 energy_ij) (npMinAxis0 energy_ij))
      | Option.some (LevelsArg.int _) => Except.error Err.configurationError
      | Option.some (LevelsArg.tup ls) =>
        Except.ok (ls.map fun j =>
          let energy_j := eigenenergies.map fun plane => plane.map fun row => row.getD j 0
          List.zipWith (· - ·) (npMaxAxis0 energy_j) (npMinAxis0 energy_j))
    match dresult with
    | Except.error e => (Except.error e, p1)
    | Except.ok dispersions =>
      let p2 := pset p1 param_name previous_paramval
      let p3 := pset p2 dispersion_name previous_dispval
      (Except.ok (eigenenergies, dispersions), p3)

/-- The argument normalization at the top of `get_dispersion_vs_paramvals`
(lines 532-535 of the source): a bare int `levels` becomes a singleton
tuple; otherwise a bare tuple `transitions` becomes a singleton sequence. -/
def dispNorm (levels : Option LevelsArg) (transitions : TransArg) :
    Option LevelsArg × TransArg :=
  match levels, transitions with
  | Option.some (LevelsArg.int n), t => (Option.some (LevelsArg.tup [n]), t)
  | l, TransArg.single ij => (l, TransArg.seq [ij])
  | l, t => (l, t)

/-- Embeds `QubitBaseClass.get_dispersion_vs_paramvals`: normalize a bare
int `levels` or a bare tuple `transitions` to singleton-sequence form,
delegate to `_compute_dispersion`, then (when `ref_param` is given) divide
the caller-supplied `param_vals` array in place and extend the parameter
name.  The second `ok` component is the content of the caller's
`param_vals` buffer after the call. -/
def get_dispersion_vs_paramvals (Q : QubitSpec) (S : EigenSolver)
    (dispersion_name param_name : String) (param_vals : List ℚ)
    (ref_param : Option String) (transitions : TransArg)
    (levels : Option LevelsArg) (point_count : ℕ) (p : Params) :
    Except Err (SpectrumData × List ℚ) × Params :=
  let norm : Option LevelsArg × TransArg := dispNorm levels transitions
  match computeDispersion Q S dispersion_name param_name param_vals norm.2 norm.1
      point_count p with
  | (Except.error e, p1) => (Except.error e, p1)
  | (Except.ok (eigenenergies, dispersion), p1) =>
    let pn_pv : String × List ℚ :=
      match ref_param with
      | Option.none => (param_name, param_vals)
      | Option.some r => (param_name ++ "/" ++ r, param_vals.map (· / pget p1 r))
    let lab : SpecLabels :=
      if levelsTruthy norm.1 then
        match norm.1 with
        | Option.some (LevelsArg.tup ls) => SpecLabels.levels ls
        | Option.some (LevelsArg.int n) => SpecLabels.levels [n]
        | Option.none => SpecLabels.transitions norm.2
      else SpecLabels.transitions norm.2
    (Except.ok ({ energy_table := EnergyData.cube eigenenergies
                  system_params := get_initdata Q p1
                  param_name := pn_pv.1
                  param_vals := pn_pv.2
                  labels := lab
                  dispersion := Option.some dispersion.transpose }, pn_pv.2), p1)

/-- Embeds `QubitBaseClass.get_matelements_vs_paramvals`: run the
eigenvector sweep, then for every parameter index compute the
matrix-element table from that index's eigenvectors and attach the
assembled 3-D table onto the SpectrumData returned by the sweep. -/
def get_matelements_vs_paramvals (Q : QubitSpec) (S : EigenSolver) (operator : String)
    (param_name : String) (param_vals : List ℚ) (evals_count : ℕ) (num_cpus : ℕ)
    (p : Params) : Except Err SpectrumData × Params :=
  match get_spectrum_vs_paramvals Q S param_name param_vals evals_count false true
      num_cpus p with
  | (Except.error e, p1) => (Except.error e, p1)
  | (Except.ok spectrumdata, p1) =>
    let st := spectrumdata.state_table.getD []
    let rowsE := collectExcept ((List.range param_vals.length).map fun idx =>
      (matrixelement_table Q S operator (Option.some (st.getD idx [])) evals_count p1).1)
    match rowsE with
    | Except.error e => (Except.error e, p1)
    | Except.ok rows =>
      (Except.ok { spectrumdata with matrixelem_table := Option.some rows }, p1)

/-- The all-zero attribute state used by the concrete examples. -/
def p0 : Params := fun _ => 0

/-- An attribute state with a nonzero reference parameter. -/
def pEC : Params := fun n => if n = "EC" then 2 else 0

/-- A concrete solver instance: reads the matrix diagonal as the
eigenvalues and returns zero eigenvectors of the matching shape. -/
def diagSolver : EigenSolver where
  solve m k :=
    ((List.range k).map fun i => ((m.getD i []).getD i 0).re,
     (List.range k).map fun _ => List.replicate m.length (0 : CNum))
  evals_len := by intro m k; simp
  evecs_len := by intro m k; simp

/-- A concrete one-dimensional system with no operator methods. -/
def toySpec : QubitSpec where
  ham := fun _ => [[0]]
  operators := fun _ => Option.none
  initParams := []

/-- A concrete two-dimensional system whose Hamiltonian is the diagonal
matrix `diag(flux, flux + 1)` and which exposes one operator method
`n_operator` returning the Hermitian matrix `diag(1, 2)`. -/
def toySpec2 : QubitSpec where
  ham := fun p => [[⟨pget p "flux", 0⟩, 0], [0, ⟨pget p "flux" + 1, 0⟩]]
  operators := fun s =>
    if s = "n_operator" then Option.some (fun _ => [[⟨1, 0⟩, 0], [0, ⟨2, 0⟩]])
    else Option.none
  initParams := ["flux"]

/-- Canonical value of the mapping phase of `get_spectrum_vs_paramvals`:
per-point solves taken from the pre-sweep state, collected in input order.
The sweep is proven equal to this form for every worker count. -/
def spectrumMapped (Q : QubitSpec) (S : EigenSolver) (name : String) (k : ℕ)
    (ge : Bool) (p : Params) (P : List ℚ) :
    Except Err (List (List ℚ) × Option (List (List (List CNum)))) :=
  if ge then
    (collectExcept (P.map fun v => Q.esysCalc S k (pset p name v))).map
      (fun md => ((recast_esys_mapdata md).1, Option.some (recast_esys_mapdata md).2))
  else
    (collectExcept (P.map fun v => Q.evalsCalc S k (pset p name v))).map
      (fun t => (t, Option.none))

/-- Canonical value of the bare-energy cube of `_compute_dispersion`:
per-cell solves taken from the pre-call state, collected in grid order. -/
def bareCube (Q : QubitSpec) (S : EigenSolver) (dispersion_name param_name : String)
    (samples vals : List ℚ) (k : ℕ) (p : Params) :
    Except Err (List (List (List ℚ))) :=
  collectExcept (samples.map fun s =>
    collectExcept (vals.map fun v =>
      Q.evalsCalc S k (pset (pset p dispersion_name s) param_name v)))

instance exceptDecEq {ε α : Type} [DecidableEq ε] [DecidableEq α] : DecidableEq (Except ε α)
  | Except.ok a, Except.ok b =>
    if h : a = b then isTrue (by rw [h]) else isFalse (by intro hc; cases hc; exact h rfl)
  | Except.ok _, Except.error _ => isFalse (by intro hc; cases hc)
  | Except.error _, Except.ok _ => isFalse (by intro hc; cases hc)
  | Except.error e, Except.error e2 =>
    if h : e = e2 then isTrue (by rw [h]) else isFalse (by intro hc; cases hc; exact h rfl)

theorem pget_pset_self (p : Params) (n : String) (v : ℚ) : pget (pset p n v) n = v := by
  simp [pget, pset]

theorem pget_pset_ne (p : Params) (n m : String) (v : ℚ) (h : m ≠ n) :
    pget (pset p n v) m = pget p m := by
  simp [pget, pset, h]

theorem pset_pset_same (p : Params) (n : String) (a b : ℚ) :
    pset (pset p n a) n b = pset p n b := by
  funext m
  by_cases h : m = n <;> simp [pset, h]

theorem pset_pget_self (p : Params) (n : String) : pset p n (pget p n) = p := by
  funext m
  by_cases h : m = n <;> simp [pset, pget, h]

theorem seqMapE_set_fst {α : Type} (g : Params → Except Err α) (name : String)
    (vals : List ℚ) : ∀ p : Params,
    (seqMapE (fun q v => (g (pset q name v), pset q name v)) p vals).1 =
      collectExcept (vals.map fun v => g (pset p name v)) := by
  induction vals with
  | nil => intro p; rfl
  | cons v vs ih =>
    intro p
    simp only [seqMapE, List.map]
    cases hg : g (pset p name v) with
    | error e => simp [collectExcept]
    | ok a =>
      have h2 := ih (pset p name v)
      have hmap : (vs.map fun w => g (pset (pset p name v) name w)) =
          vs.map fun w => g (pset p name w) := by
        apply List.map_congr_left
        intro w _
        rw [pset_pset_same]
      rw [hmap] at h2
      dsimp only
      rcases hs : seqMapE (fun q w => (g (pset q name w), pset q name w)) (pset p name v) vs
        with ⟨r, p2⟩
      rw [hs] at h2
      simp only at h2
      cases r with
      | error e => simp [collectExcept, ← h2]
      | ok as => simp [collectExcept, ← h2]

theorem seqMapE_state_pred {α : Type} (f : Params → ℚ → Except Err α × Params)
    (Pr : Params → Prop) (hf : ∀ q v, Pr q → Pr (f q v).2) (vals : List ℚ) :
    ∀ p, Pr p → Pr (seqMapE f p vals).2 := by
  induction vals with
  | nil => intro p hp; exact hp
  | cons v vs ih =>
    intro p hp
    simp only [seqMapE]
    rcases hfv : f p v with ⟨r, p1⟩
    have hp1 : Pr p1 := by
      have := hf p v hp
      rw [hfv] at this
      exact this
    cases r with
    | error e => exact hp1
    | ok a =>
      dsimp only
      rcases hs : seqMapE f p1 vs with ⟨r2, p2⟩
      have hp2 : Pr p2 := by
        have := ih p1 hp1
        rw [hs] at this
        exact this
      cases r2 with
      | ok as => exact hp2
      | error e => exact hp2

theorem sweepMap_set_fst {α : Type} (g : Params → Except Err α) (name : String)
    (nc : ℕ) (p : Params) (vals : List ℚ) :
    (sweepMap (fun q v => (g (pset q name v), pset q name v)) nc p vals).1 =
      collectExcept (vals.map fun v => g (pset p name v)) := by
  unfold sweepMap
  split
  · exact seqMapE_set_fst g name vals p
  · rfl

theorem sweepMap_set_state_other {α : Type} (g : Params → Except Err α) (name : String)
    (nc : ℕ) (p : Params) (vals : List ℚ) (m : String) (hm : m ≠ name) :
    (sweepMap (fun q v => (g (pset q name v), pset q name v)) nc p vals).2 m = p m := by
  unfold sweepMap
  split
  · exact seqMapE_state_pred _ (fun q => q m = p m)
      (fun q v hq => by simpa [pset, hm] using hq) vals p rfl
  · rfl

theorem collectExcept_ok_length {α : Type} {l : List (Except Err α)} {xs : List α}
    (h : collectExcept l = Except.ok xs) : xs.length = l.length := by
  induction l generalizing xs with
  | nil => cases h; rfl
  | cons y ys ih =>
    cases y with
    | error e => exact absurd h (by simp [collectExcept])
    | ok a =>
      simp only [collectExcept] at h
      rcases hc : collectExcept ys with e | as
      · rw [hc] at h; cases h
      · rw [hc] at h
        cases h
        simp [ih hc]

theorem collectExcept_ok_get {α : Type} {l : List (Except Err α)} {xs : List α}
    (h : collectExcept l = Except.ok xs) (i : ℕ) (hi : i < l.length) (hx : i < xs.length) :
    l.get ⟨i, hi⟩ = Except.ok (xs.get ⟨i, hx⟩) := by
  induction l generalizing xs i with
  | nil => cases hi
  | cons y ys ih =>
    cases y with
    | error e => exact absurd h (by simp [collectExcept])
    | ok a =>
      simp only [collectExcept] at h
      rcases hc : collectExcept ys with e | as
      · rw [hc] at h; cases h
      · rw [hc] at h
        cases h
        cases i with
        | zero => rfl
        | succ n =>
          exact ih hc n (Nat.lt_of_succ_lt_succ hi) (Nat.lt_of_succ_lt_succ hx)

theorem collectExcept_ok_mem {α : Type} {l : List (Except Err α)} {xs : List α}
    (h : collectExcept l = Except.ok xs) (x : α) (hx : x ∈ xs) : Except.ok x ∈ l := by
  induction l generalizing xs with
  | nil => cases h; cases hx
  | cons y ys ih =>
    cases y with
    | error e => exact absurd h (by simp [collectExcept])
    | ok a =>
      simp only [collectExcept] at h
      rcases hc : collectExcept ys with e | as
      · rw [hc] at h; cases h
      · rw [hc] at h
        cases h
        rcases List.mem_cons.mp hx with rfl | hmem
        · exact List.mem_cons_self _ _
        · exact List.mem_cons_of_mem _ (ih hc hmem)

theorem npSort_sorted (l : List ℚ) : (npSort l).Sorted (· ≤ ·) :=
  List.sorted_insertionSort _ l

theorem npSort_length (l : List ℚ) : (npSort l).length = l.length :=
  List.length_insertionSort _ l

theorem evalsCalc_ok {Q : QubitSpec} {S : EigenSolver} {k : ℕ} {p : Params}
    {evals : List ℚ} (h : Q.evalsCalc S k p = Except.ok evals) :
    1 ≤ k ∧ k ≤ Q.hilbertdim p ∧ evals = npSort (S.solve (Q.ham p) k).1 := by
  unfold QubitSpec.evalsCalc eigh at h
  split at h
  · next hc =>
    simp only [Except.map] at h
    cases h
    exact ⟨hc.1, hc.2, rfl⟩
  · simp only [Except.map] at h
    cases h

theorem evalsCalc_ok_sorted {Q : QubitSpec} {S : EigenSolver} {k : ℕ} {p : Params}
    {evals : List ℚ} (h : Q.evalsCalc S k p = Except.ok evals) :
    evals.Sorted (· ≤ ·) := by
  rcases evalsCalc_ok h with ⟨-, -, rfl⟩
  exact npSort_sorted _

theorem evalsCalc_ok_length {Q : QubitSpec} {S : EigenSolver} {k : ℕ} {p : Params}
    {evals : List ℚ} (h : Q.evalsCalc S k p = Except.ok evals) :
    evals.length = k := by
  rcases evalsCalc_ok h with ⟨-, -, rfl⟩
  rw [npSort_length, S.evals_len]

theorem esysCalc_ok {Q : QubitSpec} {S : EigenSolver} {k : ℕ} {p : Params}
    {evals : List ℚ} {evecs : List (List CNum)}
    (h : Q.esysCalc S k p = Except.ok (evals, evecs)) :
    1 ≤ k ∧ k ≤ Q.hilbertdim p ∧
      (evals, evecs) = order_eigensystem (S.solve (Q.ham p) k).1 (S.solve (Q.ham p) k).2 := by
  unfold QubitSpec.esysCalc eigh at h
  split at h
  · next hc =>
    simp only [Except.map] at h
    cases h
    exact ⟨hc.1, hc.2, rfl⟩
  · simp only [Except.map] at h
    cases h

theorem order_eigensystem_fst_sorted (evals : List ℚ) (evecs : List (List CNum)) :
    (order_eigensystem evals evecs).1.Sorted (· ≤ ·) := by
  have hs : ((evals.zip evecs).insertionSort keyLe).Pairwise keyLe :=
    List.sorted_insertionSort keyLe _
  exact List.Pairwise.map _ (fun a b hab => hab) hs

theorem order_eigensystem_fst_length {evals : List ℚ} {evecs : List (List CNum)} {k : ℕ}
    (h1 : evals.length = k) (h2 : evecs.length = k) :
    (order_eigensystem evals evecs).1.length = k := by
  simp [order_eigensystem, List.length_insertionSort, h1, h2]

theorem order_eigensystem_snd_length {evals : List ℚ} {evecs : List (List CNum)} {k : ℕ}
    (h1 : evals.length = k) (h2 : evecs.length = k) :
    (order_eigensystem evals evecs).2.length = k := by
  simp [order_eigensystem, List.length_insertionSort, h1, h2]

theorem esysCalc_ok_sorted {Q : QubitSpec} {S : EigenSolver} {k : ℕ} {p : Params}
    {evals : List ℚ} {evecs : List (List CNum)}
    (h : Q.esysCalc S k p = Except.ok (evals, evecs)) : evals.Sorted (· ≤ ·) := by
  rcases esysCalc_ok h with ⟨-, -, heq⟩
  have : evals = (order_eigensystem (S.solve (Q.ham p) k).1 (S.solve (Q.ham p) k).2).1 := by
    rw [← heq]
  rw [this]
  exact order_eigensystem_fst_sorted _ _

theorem esysCalc_ok_fst_length {Q : QubitSpec} {S : EigenSolver} {k : ℕ} {p : Params}
    {evals : List ℚ} {evecs : List (List CNum)}
    (h : Q.esysCalc S k p = Except.ok (evals, evecs)) : evals.length = k := by
  rcases esysCalc_ok h with ⟨-, -, heq⟩
  have : evals = (order_eigensystem (S.solve (Q.ham p) k).1 (S.solve (Q.ham p) k).2).1 := by
    rw [← heq]
  rw [this]
  exact order_eigensystem_fst_length (S.evals_len _ _) (S.evecs_len _ _)

theorem esysCalc_ok_snd_length {Q : QubitSpec} {S : EigenSolver} {k : ℕ} {p : Params}
    {evals : List ℚ} {evecs : List (List CNum)}
    (h : Q.esysCalc S k p = Except.ok (evals, evecs)) : evecs.length = k := by
  rcases esysCalc_ok h with ⟨-, -, heq⟩
  have : evecs = (order_eigensystem (S.solve (Q.ham p) k).1 (S.solve (Q.ham p) k).2).2 := by
    rw [← heq]
  rw [this]
  exact order_eigensystem_snd_length (S.evals_len _ _) (S.evecs_len _ _)

theorem sorted_headD_le {l : List ℚ} (h : l.Sorted (· ≤ ·)) {x : ℚ} (hx : x ∈ l) :
    l.headD 0 ≤ x := by
  cases l with
  | nil => cases hx
  | cons y ys =>
    rcases List.mem_cons.mp hx with rfl | hmem
    · simp
    · exact (List.sorted_cons.mp h).1 x hmem

theorem sorted_map_sub {l : List ℚ} (h : l.Sorted (· ≤ ·)) (c : ℚ) :
    (l.map (· - c)).Sorted (· ≤ ·) :=
  List.Pairwise.map _ (fun a b hab => by simpa using sub_le_sub_right hab c) h

theorem sweep_mapped_evals (Q : QubitSpec) (S : EigenSolver) (name : String) (k nc : ℕ)
    (p : Params) (P : List ℚ) :
    (sweepMap (evalsForParamval Q S name k) nc p P).1 =
      collectExcept (P.map fun v => Q.evalsCalc S k (pset p name v)) :=
  sweepMap_set_fst (Q.evalsCalc S k) name nc p P

theorem sweep_mapped_esys (Q : QubitSpec) (S : EigenSolver) (name : String) (k nc : ℕ)
    (p : Params) (P : List ℚ) :
    (sweepMap (esysForParamval Q S name k) nc p P).1 =
      collectExcept (P.map fun v => Q.esysCalc S k (pset p name v)) :=
  sweepMap_set_fst (Q.esysCalc S k) name nc p P

theorem sweep_state_evals (Q : QubitSpec) (S : EigenSolver) (name : String) (k nc : ℕ)
    (p : Params) (P : List ℚ) (m : String) (hm : m ≠ name) :
    (sweepMap (evalsForParamval Q S name k) nc p P).2 m = p m :=
  sweepMap_set_state_other (Q.evalsCalc S k) name nc p P m hm

theorem sweep_state_esys (Q : QubitSpec) (S : EigenSolver) (name : String) (k nc : ℕ)
    (p : Params) (P : List ℚ) (m : String) (hm : m ≠ name) :
    (sweepMap (esysForParamval Q S name k) nc p P).2 m = p m :=
  sweepMap_set_state_other (Q.esysCalc S k) name nc p P m hm

theorem get_spectrum_fst (Q : QubitSpec) (S : EigenSolver) (name : String) (P : List ℚ)
    (k : ℕ) (sg ge : Bool) (nc : ℕ) (p : Params) :
    (get_spectrum_vs_paramvals Q S name P k sg ge nc p).1 =
      match spectrumMapped Q S name k ge p P with
      | Except.error e => Except.error e
      | Except.ok (evtab, sttab) =>
        Except.ok { energy_table := EnergyData.table
                      (if sg then evtab.map (fun row => row.map (· - row.headD 0)) else evtab)
                    system_params := get_initdata Q p
                    param_name := name
                    param_vals := P
                    state_table := sttab } := by
  cases ge with
  | false =>
    rcases hsm : sweepMap (evalsForParamval Q S name k) nc p P with ⟨r, p1⟩
    have hfst : r = collectExcept (P.map fun v => Q.evalsCalc S k (pset p name v)) := by
      have h := sweep_mapped_evals Q S name k nc p P
      rw [hsm] at h
      exact h
    have hrestore : pset p1 name (pget p name) = p := by
      funext m
      by_cases hmn : m = name
      · subst hmn; simp [pset, pget]
      · have h2 := sweep_state_evals Q S name k nc p P m hmn
        rw [hsm] at h2
        simpa [pset, hmn] using h2
    subst hfst
    unfold get_spectrum_vs_paramvals spectrumMapped
    simp only [Bool.false_eq_true, if_false]
    rw [hsm]
    cases hcol : collectExcept (P.map fun v => Q.evalsCalc S k (pset p name v)) with
    | error e => simp [Except.map]
    | ok evtab => simp [Except.map, hrestore]
  | true =>
    rcases hsm : sweepMap (esysForParamval Q S name k) nc p P with ⟨r, p1⟩
    have hfst : r = collectExcept (P.map fun v => Q.esysCalc S k (pset p name v)) := by
      have h := sweep_mapped_esys Q S name k nc p P
      rw [hsm] at h
      exact h
    have hrestore : pset p1 name (pget p name) = p := by
      funext m
      by_cases hmn : m = name
      · subst hmn; simp [pset, pget]
      · have h2 := sweep_state_esys Q S name k nc p P m hmn
        rw [hsm] at h2
        simpa [pset, hmn] using h2
    subst hfst
    unfold get_spectrum_vs_paramvals spectrumMapped
    simp only [if_true]
    rw [hsm]
    cases hcol : collectExcept (P.map fun v => Q.esysCalc S k (pset p name v)) with
    | error e => simp [Except.map]
    | ok mapdata => simp [Except.map, hrestore]

theorem get_spectrum_ok_state (Q : QubitSpec) (S : EigenSolver) (name : String)
    (P : List ℚ) (k : ℕ) (sg ge : Bool) (nc : ℕ) (p : Params) (d : SpectrumData)
    (h : (get_spectrum_vs_paramvals Q S name P k sg ge nc p).1 = Except.ok d) :
    (get_spectrum_vs_paramvals Q S name P k sg ge nc p).2 = p := by
  cases ge with
  | false =>
    rcases hsm : sweepMap (evalsForParamval Q S name k) nc p P with ⟨r, p1⟩
    have hrestore : pset p1 name (pget p name) = p := by
      funext m
      by_cases hmn : m = name
      · subst hmn; simp [pset, pget]
      · have h2 := sweep_state_evals Q S name k nc p P m hmn
        rw [hsm] at h2
        simpa [pset, hmn] using h2
    unfold get_spectrum_vs_paramvals at h ⊢
    simp only [Bool.false_eq_true, if_false] at h ⊢
    rw [hsm] at h ⊢
    cases r with
    | error e => simp at h
    | ok evtab => simpa using hrestore
  | true =>
    rcases hsm : sweepMap (esysForParamval Q S name k) nc p P with ⟨r, p1⟩
    have hrestore : pset p1 name (pget p name) = p := by
      funext m
      by_cases hmn : m = name
      · subst hmn; simp [pset, pget]
      · have h2 := sweep_state_esys Q S name k nc p P m hmn
        rw [hsm] at h2
        simpa [pset, hmn] using h2
    unfold get_spectrum_vs_paramvals at h ⊢
    simp only [if_true] at h ⊢
    rw [hsm] at h ⊢
    cases r with
    | error e => simp at h
    | ok mapdata => simpa using hrestore

theorem pset2_congr {q p : Params} (d pn : String)
    (hagree : ∀ m, m ≠ d → m ≠ pn → q m = p m) (s v : ℚ) :
    pset (pset q d s) pn v = pset (pset p d s) pn v := by
  funext m
  by_cases h1 : m = pn
  · simp [pset, h1]
  · by_cases h2 : m = d
    · simp [pset, h1, h2]
    · simp [pset, h1, h2, hagree m h2 h1]

theorem seqMapE_cell_fst (Q : QubitSpec) (S : EigenSolver) (d pn : String) (k : ℕ)
    (s : ℚ) (vals : List ℚ) : ∀ p : Params,
    (seqMapE (dispersionCell Q S d pn k s) p vals).1 =
      collectExcept (vals.map fun v => Q.evalsCalc S k (pset (pset p d s) pn v)) := by
  induction vals with
  | nil => intro p; rfl
  | cons v vs ih =>
    intro p
    simp only [seqMapE, List.map, dispersionCell]
    cases hg : Q.evalsCalc S k (pset (pset p d s) pn v) with
    | error e => simp [collectExcept]
    | ok a =>
      dsimp only
      have h2 := ih (pset (pset p d s) pn v)
      have hagree : ∀ m, m ≠ d → m ≠ pn → (pset (pset p d s) pn v) m = p m := by
        intro m h1 h3
        simp [pset, h1, h3]
      have hmap : (vs.map fun w =>
            Q.evalsCalc S k (pset (pset (pset (pset p d s) pn v) d s) pn w)) =
          vs.map fun w => Q.evalsCalc S k (pset (pset p d s) pn w) := by
        apply List.map_congr_left
        intro w _
        rw [pset2_congr d pn hagree s w]
      rw [hmap] at h2
      rcases hs : seqMapE (dispersionCell Q S d pn k s) (pset (pset p d s) pn v) vs
        with ⟨r, p2⟩
      rw [hs] at h2
      simp only at h2
      cases r with
      | error e => simp [collectExcept, ← h2]
      | ok as => simp [collectExcept, ← h2]

theorem bareCube_congr {Q : QubitSpec} {S : EigenSolver} {d pn : String}
    {samples vals : List ℚ} {k : ℕ} {q p : Params}
    (hagree : ∀ m, m ≠ d → m ≠ pn → q m = p m) :
    bareCube Q S d pn samples vals k q = bareCube Q S d pn samples vals k p := by
  unfold bareCube
  congr 1
  apply List.map_congr_left
  intro s _
  congr 1
  apply List.map_congr_left
  intro v _
  rw [pset2_congr d pn hagree s v]

theorem bareSweep_state_other (Q : QubitSpec) (S : EigenSolver) (d pn : String)
    (samples vals : List ℚ) (k : ℕ) (p : Params) (m : String)
    (hm1 : m ≠ d) (hm2 : m ≠ pn) :
    (bareSweep Q S d pn samples vals k p).2 m = p m := by
  exact seqMapE_state_pred _ (fun q => q m = p m)
    (fun q s hq => seqMapE_state_pred (dispersionCell Q S d pn k s) (fun q2 => q2 m = p m)
      (fun q2 v hq2 => by simpa [dispersionCell, pset, hm1, hm2] using hq2) vals q hq)
    samples p rfl

theorem bareSweep_fst (Q : QubitSpec) (S : EigenSolver) (d pn : String)
    (samples vals : List ℚ) (k : ℕ) : ∀ p : Params,
    (bareSweep Q S d pn samples vals k p).1 = bareCube Q S d pn samples vals k p := by
  induction samples with
  | nil => intro p; rfl
  | cons s ss ih =>
    intro p
    unfold bareSweep bareCube
    simp only [seqMapE, List.map]
    rcases hinner : seqMapE (dispersionCell Q S d pn k s) p vals with ⟨r1, p1⟩
    have hr1 : r1 = collectExcept (vals.map fun v =>
        Q.evalsCalc S k (pset (pset p d s) pn v)) := by
      have h := seqMapE_cell_fst Q S d pn k s vals p
      rw [hinner] at h
      exact h
    have hp1 : ∀ m, m ≠ d → m ≠ pn → p1 m = p m := by
      intro m h1 h2
      have := seqMapE_state_pred (dispersionCell Q S d pn k s) (fun q2 => q2 m = p m)
        (fun q2 v hq2 => by simpa [dispersionCell, pset, h1, h2] using hq2) vals p rfl
      rw [hinner] at this
      exact this
    subst hr1
    cases hcol : collectExcept (vals.map fun v =>
        Q.evalsCalc S k (pset (pset p d s) pn v)) with
    | error e => simp [collectExcept]
    | ok plane =>
      dsimp only
      rcases houter : seqMapE (fun q s2 =>
          seqMapE (dispersionCell Q S d pn k s2) q vals) p1 ss with ⟨r2, p2⟩
      have hr2 : r2 = bareCube Q S d pn ss vals k p := by
        have h := ih p1
        unfold bareSweep at h
        rw [houter] at h
        simp only at h
        rw [h]
        exact bareCube_congr hp1
      cases r2 with
      | error e =>
        dsimp only
        unfold bareCube at hr2
        simp [collectExcept, ← hr2]
      | ok rest =>
        dsimp only
        unfold bareCube at hr2
        simp [collectExcept, ← hr2]

theorem computeDispersion_ok_state (Q : QubitSpec) (S : EigenSolver) (d pn : String)
    (P : List ℚ) (trans : TransArg) (ls : Option LevelsArg) (pc : ℕ) (p : Params)
    (x : List (List (List ℚ)) × List (List ℚ))
    (h : (computeDispersion Q S d pn P trans ls pc p).1 = Except.ok x) :
    (computeDispersion Q S d pn P trans ls pc p).2 = p := by
  unfold computeDispersion at h ⊢
  dsimp only at h ⊢
  rcases hbs : bareSweep Q S d pn (linspace01 pc) P
      ((if levelsTruthy ls then levelsNpMax ls else trans.npMax) + 1) p with ⟨r, p1⟩
  rw [hbs] at h
  cases r with
  | error e =>
    have hcontra : Except.error e = Except.ok x := h
    cases hcontra
  | ok ee =>
    have hstate : ∀ m, m ≠ d → m ≠ pn → p1 m = p m := by
      intro m h1 h2
      have hb := bareSweep_state_other Q S d pn (linspace01 pc) P
        ((if levelsTruthy ls then levelsNpMax ls else trans.npMax) + 1) p m h1 h2
      rw [hbs] at hb
      exact hb
    have hfinal : pset (pset p1 pn (pget p pn)) d (pget p d) = p := by
      funext m
      by_cases h1 : m = d
      · subst h1; simp [pset, pget]
      · by_cases h2 : m = pn
        · subst h2; simp [pset, pget, h1]
        · simp [pset, h1, h2, hstate m h1 h2]
    cases ls with
    | none =>
      cases trans with
      | single ij =>
        have hcontra : Except.error Err.configurationError = Except.ok x := h
        cases hcontra
      | seq ts => exact hfinal
    | some l =>
      cases l with
      | int n =>
        have hcontra : Except.error Err.configurationError = Except.ok x := h
        cases hcontra
      | tup lvls => exact hfinal

theorem computeDispersion_ok_trans {Q : QubitSpec} {S : EigenSolver} {d pn : String}
    {P : List ℚ} {ts : List (ℕ × ℕ)} {pc : ℕ} {p : Params}
    {cube : List (List (List ℚ))} {disp : List (List ℚ)}
    (h : (computeDispersion Q S d pn P (TransArg.seq ts) Option.none pc p).1 =
      Except.ok (cube, disp)) :
    bareCube Q S d pn (linspace01 pc) P ((TransArg.seq ts).npMax + 1) p = Except.ok cube ∧
    disp = ts.map (fun ij =>
      List.zipWith (· - ·)
        (npMaxAxis0 (cube.map fun plane =>
          plane.map fun row => row.getD ij.1 0 - row.getD ij.2 0))
        (npMinAxis0 (cube.map fun plane =>
          plane.map fun row => row.getD ij.1 0 - row.getD ij.2 0))) := by
  unfold computeDispersion at h
  simp only [levelsTruthy, Bool.false_eq_true, if_false] at h
  rcases hbs : bareSweep Q S d pn (linspace01 pc) P ((TransArg.seq ts).npMax + 1) p
    with ⟨r, p1⟩
  rw [hbs] at h
  cases r with
  | error e => simp at h
  | ok ee =>
    have hcube : bareCube Q S d pn (linspace01 pc) P ((TransArg.seq ts).npMax + 1) p =
        Except.ok ee := by
      have hb := bareSweep_fst Q S d pn (linspace01 pc) P ((TransArg.seq ts).npMax + 1) p
      rw [hbs] at hb
      exact hb.symm
    simp only [Prod.mk.injEq] at h
    simp only [Except.ok.injEq, Prod.mk.injEq] at h
    obtain ⟨h1, h2⟩ := h
    subst h1
    subst h2
    exact ⟨hcube, rfl⟩

theorem computeDispersion_ok_levels {Q : QubitSpec} {S : EigenSolver} {d pn : String}
    {P : List ℚ} {trans : TransArg} {lvls : List ℕ} {pc : ℕ} {p : Params}
    {cube : List (List (List ℚ))} {disp : List (List ℚ)}
    (h : (computeDispersion Q S d pn P trans (Option.some (LevelsArg.tup lvls)) pc p).1 =
      Except.ok (cube, disp)) :
    bareCube Q S d pn (linspace01 pc) P
        ((if levelsTruthy (Option.some (LevelsArg.tup lvls)) then
            levelsNpMax (Option.some (LevelsArg.tup lvls)) else trans.npMax) + 1) p =
      Except.ok cube ∧
    disp = lvls.map (fun j =>
      List.zipWith (· - ·)
        (npMaxAxis0 (cube.map fun plane => plane.map fun row => row.getD j 0))
        (npMinAxis0 (cube.map fun plane => plane.map fun row => row.getD j 0))) := by
  unfold computeDispersion at h
  dsimp only at h
  rcases hbs : bareSweep Q S d pn (linspace01 pc) P
      ((if levelsTruthy (Option.some (LevelsArg.tup lvls)) then
          levelsNpMax (Option.some (LevelsArg.tup lvls)) else trans.npMax) + 1) p
    with ⟨r, p1⟩
  rw [hbs] at h
  cases r with
  | error e => simp at h
  | ok ee =>
    have hcube : bareCube Q S d pn (linspace01 pc) P
        ((if levelsTruthy (Option.some (LevelsArg.tup lvls)) then
            levelsNpMax (Option.some (LevelsArg.tup lvls)) else trans.npMax) + 1) p =
        Except.ok ee := by
      have hb := bareSweep_fst Q S d pn (linspace01 pc) P
        ((if levelsTruthy (Option.some (LevelsArg.tup lvls)) then
            levelsNpMax (Option.some (LevelsArg.tup lvls)) else trans.npMax) + 1) p
      rw [hbs] at hb
      exact hb.symm
    simp only [Except.ok.injEq, Prod.mk.injEq] at h
    obtain ⟨h1, h2⟩ := h
    subst h1
    subst h2
    exact ⟨hcube, rfl⟩

theorem computeDispersion_trans_irrel (Q : QubitSpec) (S : EigenSolver) (d pn : String)
    (P : List ℚ) (t1 t2 : TransArg) (lvls : List ℕ) (hne : lvls ≠ []) (pc : ℕ)
    (p : Params) :
    computeDispersion Q S d pn P t1 (Option.some (LevelsArg.tup lvls)) pc p =
      computeDispersion Q S d pn P t2 (Option.some (LevelsArg.tup lvls)) pc p := by
  unfold computeDispersion
  have ht : levelsTruthy (Option.some (LevelsArg.tup lvls)) = true := by
    simp [levelsTruthy, hne]
  rw [ht]
  rfl

theorem getD_map_range {α : Type} (f : ℕ → α) (n i : ℕ) (hi : i < n) (dflt : α) :
    ((List.range n).map f).getD i dflt = f i := by
  rw [List.getD_eq_getElem _ _ (by simpa using hi)]
  simp

theorem getD_map {α β : Type} (f : α → β) (l : List α) (i : ℕ) (hi : i < l.length)
    (d : α) (d2 : β) : (l.map f).getD i d2 = f (l.getD i d) := by
  rw [List.getD_eq_getElem _ _ (by simpa using hi), List.getD_eq_getElem _ _ hi]
  simp

theorem getD_zipWith (f : ℚ → ℚ → ℚ) (as bs : List ℚ) (i : ℕ)
    (ha : i < as.length) (hb : i < bs.length) :
    (List.zipWith f as bs).getD i 0 = f (as.getD i 0) (bs.getD i 0) := by
  rw [List.getD_eq_getElem _ _ (by simp [List.length_zipWith]; omega),
    List.getD_eq_getElem _ _ ha, List.getD_eq_getElem _ _ hb]
  simp

theorem getD_get {α : Type} (l : List α) (i : ℕ) (hi : i < l.length) (d : α) :
    l.getD i d = l.get ⟨i, hi⟩ := by
  rw [List.getD_eq_getElem _ _ hi]
  simp

theorem foldl_max_const {c : ℚ} {xs : List ℚ} (h : ∀ x ∈ xs, x = c) :
    xs.foldl max c = c := by
  induction xs with
  | nil => rfl
  | cons y ys ih =>
    have hy : y = c := h y (List.mem_cons_self _ _)
    rw [List.foldl_cons, hy, max_self]
    exact ih fun x hx => h x (List.mem_cons_of_mem _ hx)

theorem foldl_min_const {c : ℚ} {xs : List ℚ} (h : ∀ x ∈ xs, x = c) :
    xs.foldl min c = c := by
  induction xs with
  | nil => rfl
  | cons y ys ih =>
    have hy : y = c := h y (List.mem_cons_self _ _)
    rw [List.foldl_cons, hy, min_self]
    exact ih fun x hx => h x (List.mem_cons_of_mem _ hx)

theorem listMax_const {c : ℚ} {l : List ℚ} (hne : l ≠ []) (h : ∀ x ∈ l, x = c) :
    listMax l = c := by
  cases l with
  | nil => exact absurd rfl hne
  | cons y ys =>
    have hy : y = c := h y (List.mem_cons_self _ _)
    unfold listMax
    rw [hy]
    exact foldl_max_const fun x hx => h x (List.mem_cons_of_mem _ hx)

theorem listMin_const {c : ℚ} {l : List ℚ} (hne : l ≠ []) (h : ∀ x ∈ l, x = c) :
    listMin l = c := by
  cases l with
  | nil => exact absurd rfl hne
  | cons y ys =>
    have hy : y = c := h y (List.mem_cons_self _ _)
    unfold listMin
    rw [hy]
    exact foldl_min_const fun x hx => h x (List.mem_cons_of_mem _ hx)

theorem linspace01_length (n : ℕ) : (linspace01 n).length = n := by
  unfold linspace01
  split
  · next h => simp [h]
  · rw [List.length_map, List.length_range]

theorem innerElem_conj (opM : List (List CNum)) (v w : List CNum) (n : ℕ)
    (hv : v.length = n) (hw : w.length = n)
    (hop : ∀ a b, a < n → b < n → (opM.getD b []).getD a 0 = star ((opM.getD a []).getD b 0)) :
    innerElem opM w v = star (innerElem opM v w) := by
  unfold innerElem
  rw [star_sum]
  simp only [star_sum]
  rw [Finset.sum_comm]
  rw [hv, hw]
  refine Finset.sum_congr rfl fun b hb => Finset.sum_congr rfl fun a ha => ?_
  have hb2 : b < n := Finset.mem_range.mp hb
  have ha2 : a < n := Finset.mem_range.mp ha
  rw [star_mul, star_mul, star_star]
  rw [← hop b a hb2 ha2]
  ring

theorem getD_mem {α : Type} (l : List α) (i : ℕ) (hi : i < l.length) (d : α) :
    l.getD i d ∈ l := by
  rw [getD_get l i hi]
  exact List.get_mem l i hi

theorem collectExcept_map_get {α β : Type} (f : α → Except Err β) (l : List α)
    (xs : List β) (h : collectExcept (l.map f) = Except.ok xs) (i : ℕ)
    (hi : i < l.length) (hx : i < xs.length) :
    f (l.get ⟨i, hi⟩) = Except.ok (xs.get ⟨i, hx⟩) := by
  have hg := collectExcept_ok_get h i (by simpa using hi) hx
  rw [List.get_eq_getElem, List.getElem_map] at hg
  rw [List.get_eq_getElem]
  exact hg

theorem spectrumMapped_evals_ok {Q : QubitSpec} {S : EigenSolver} {name : String}
    {k : ℕ} {p : Params} {P : List ℚ} {evtab : List (List ℚ)}
    {sttab : Option (List (List (List CNum)))}
    (h : spectrumMapped Q S name k false p P = Except.ok (evtab, sttab)) :
    collectExcept (P.map fun v => Q.evalsCalc S k (pset p name v)) = Except.ok evtab ∧
      sttab = Option.none := by
  unfold spectrumMapped at h
  simp only [Bool.false_eq_true, if_false] at h
  cases hcol : collectExcept (P.map fun v => Q.evalsCalc S k (pset p name v)) with
  | error e => rw [hcol] at h; cases h
  | ok T =>
    rw [hcol] at h
    simp only [Except.map, Except.ok.injEq, Prod.mk.injEq] at h
    obtain ⟨h1, h2⟩ := h
    subst h1
    subst h2
    exact ⟨rfl, rfl⟩

theorem spectrumMapped_esys_ok {Q : QubitSpec} {S : EigenSolver} {name : String}
    {k : ℕ} {p : Params} {P : List ℚ} {evtab : List (List ℚ)}
    {sttab : Option (List (List (List CNum)))}
    (h : spectrumMapped Q S name k true p P = Except.ok (evtab, sttab)) :
    ∃ md, collectExcept (P.map fun v => Q.esysCalc S k (pset p name v)) = Except.ok md ∧
      evtab = md.map Prod.fst ∧ sttab = Option.some (md.map Prod.snd) := by
  unfold spectrumMapped at h
  simp only [if_true] at h
  cases hcol : collectExcept (P.map fun v => Q.esysCalc S k (pset p name v)) with
  | error e => rw [hcol] at h; cases h
  | ok md =>
    rw [hcol] at h
    simp only [Except.map, Except.ok.injEq, Prod.mk.injEq] at h
    obtain ⟨h1, h2⟩ := h
    exact ⟨md, rfl, h1.symm, h2.symm⟩

theorem spectrumMapped_ok_rows {Q : QubitSpec} {S : EigenSolver} {name : String}
    {k : ℕ} {ge : Bool} {p : Params} {P : List ℚ} {evtab : List (List ℚ)}
    {sttab : Option (List (List (List CNum)))}
    (h : spectrumMapped Q S name k ge p P = Except.ok (evtab, sttab)) :
    evtab.length = P.length ∧
      ∀ row ∈ evtab, row.Sorted (· ≤ ·) ∧ row.length = k ∧ 1 ≤ k := by
  cases ge with
  | false =>
    obtain ⟨hcol, -⟩ := spectrumMapped_evals_ok h
    constructor
    · have := collectExcept_ok_length hcol
      simpa using this
    · intro row hrow
      have hmem := collectExcept_ok_mem hcol row hrow
      rw [List.mem_map] at hmem
      obtain ⟨v, -, heq⟩ := hmem
      exact ⟨evalsCalc_ok_sorted heq, evalsCalc_ok_length heq, (evalsCalc_ok heq).1⟩
  | true =>
    obtain ⟨md, hcol, hev, -⟩ := spectrumMapped_esys_ok h
    subst hev
    constructor
    · have := collectExcept_ok_length hcol
      simp only [List.length_map] at this ⊢
      exact this
    · intro row hrow
      rw [List.mem_map] at hrow
      obtain ⟨pair, hpair, hrow2⟩ := hrow
      have hmem := collectExcept_ok_mem hcol pair hpair
      rw [List.mem_map] at hmem
      obtain ⟨v, -, heq⟩ := hmem
      rcases pair with ⟨evals, evecs⟩
      cases hrow2
      exact ⟨esysCalc_ok_sorted heq, esysCalc_ok_fst_length heq, (esysCalc_ok heq).1⟩

theorem bareCube_ok_shape {Q : QubitSpec} {S : EigenSolver} {d pn : String}
    {samples vals : List ℚ} {k : ℕ} {p : Params} {cube : List (List (List ℚ))}
    (h : bareCube Q S d pn samples vals k p = Except.ok cube) :
    cube.length = samples.length ∧ ∀ plane ∈ cube, plane.length = vals.length := by
  unfold bareCube at h
  constructor
  · have := collectExcept_ok_length h
    simpa using this
  · intro plane hplane
    have hmem := collectExcept_ok_mem h plane hplane
    rw [List.mem_map] at hmem
    obtain ⟨s, -, heq⟩ := hmem
    have := collectExcept_ok_length heq
    simpa using this

theorem spread_getD (cube : List (List (List ℚ))) (f : List ℚ → ℚ) (L j : ℕ)
    (hL : ∀ plane ∈ cube, plane.length = L) (hj : j < L) (hne : cube ≠ []) :
    (List.zipWith (· - ·) (npMaxAxis0 (cube.map fun plane => plane.map f))
        (npMinAxis0 (cube.map fun plane => plane.map f))).getD j 0 =
      listMax (cube.map fun plane => f (plane.getD j [])) -
        listMin (cube.map fun plane => f (plane.getD j [])) := by
  obtain ⟨c0, rest, rfl⟩ : ∃ c0 rest, cube = c0 :: rest := by
    cases cube with
    | nil => exact absurd rfl hne
    | cons c0 rest => exact ⟨c0, rest, rfl⟩
  have hwidth : (((c0 :: rest).map fun plane => plane.map f).headD []).length = L := by
    simp [hL c0 (List.mem_cons_self _ _)]
  have hmax_len : (npMaxAxis0 ((c0 :: rest).map fun plane => plane.map f)).length = L := by
    simp [npMaxAxis0, hL c0 (List.mem_cons_self _ _)]
  have hmin_len : (npMinAxis0 ((c0 :: rest).map fun plane => plane.map f)).length = L := by
    simp [npMinAxis0, hL c0 (List.mem_cons_self _ _)]
  rw [getD_zipWith _ _ _ j (by rw [hmax_len]; exact hj) (by rw [hmin_len]; exact hj)]
  unfold npMaxAxis0 npMinAxis0
  rw [hwidth]
  rw [getD_map_range _ L j hj, getD_map_range _ L j hj]
  have hcols : ((c0 :: rest).map fun plane => plane.map f).map (fun row => row.getD j 0) =
      (c0 :: rest).map fun plane => f (plane.getD j []) := by
    rw [List.map_map]
    apply List.map_congr_left
    intro plane hplane
    exact getD_map f plane j (by rw [hL plane hplane]; exact hj) [] 0
  rw [hcols]

theorem matrixelement_table_some (Q : QubitSpec) (S : EigenSolver) (op : String)
    (V : List (List CNum)) (k : ℕ) (p : Params) (f : Params → List (List CNum))
    (hop : Q.operators op = Option.some f) :
    matrixelement_table Q S op (Option.some V) k p =
      (Except.ok (get_matrixelement_table (f p) V), p) := by
  unfold matrixelement_table
  rw [hop]

theorem get_matrixelement_table_length (op : List (List CNum)) (evecs : List (List CNum)) :
    (get_matrixelement_table op evecs).length = evecs.length := by
  simp [get_matrixelement_table]

theorem get_matrixelement_table_row_length (op : List (List CNum))
    (evecs : List (List CNum)) (r : List CNum) (hr : r ∈ get_matrixelement_table op evecs) :
    r.length = evecs.length := by
  unfold get_matrixelement_table at hr
  rw [List.mem_map] at hr
  obtain ⟨vi, -, heq⟩ := hr
  rw [← heq]
  simp

theorem get_matrixelement_table_entry (op : List (List CNum)) (evecs : List (List CNum))
    (i j : ℕ) (hi : i < evecs.length) (hj : j < evecs.length) :
    ((get_matrixelement_table op evecs).getD i []).getD j 0 =
      innerElem op (evecs.getD i []) (evecs.getD j []) := by
  unfold get_matrixelement_table
  rw [getD_map _ _ i hi [] []]
  rw [getD_map _ _ j hj [] 0]

theorem get_matrixelement_table_herm (op : List (List CNum)) (evecs : List (List CNum))
    (n : ℕ) (hvecs : ∀ v ∈ evecs, v.length = n)
    (hop : ∀ a b, a < n → b < n →
      (op.getD b []).getD a 0 = star ((op.getD a []).getD b 0))
    (i j : ℕ) (hi : i < evecs.length) (hj : j < evecs.length) :
    ((get_matrixelement_table op evecs).getD j []).getD i 0 =
      star (((get_matrixelement_table op evecs).getD i []).getD j 0) := by
  rw [get_matrixelement_table_entry op evecs j i hj hi,
    get_matrixelement_table_entry op evecs i j hi hj]
  exact innerElem_conj op (evecs.getD i []) (evecs.getD j []) n
    (hvecs _ (getD_mem evecs i hi [])) (hvecs _ (getD_mem evecs j hj [])) hop

/-- C3: for every system and every requested eigenvalue count strictly greater
than `hilbertdim()`, the single-point solves `eigenvals` and `eigensys` fail
with `DimensionError`, and the attribute state of the system is unchanged by
the failed call (the state returned with the error equals the input state;
the bodies perform no attribute writes). -/
theorem C3_dimension_error (Q : QubitSpec) (S : EigenSolver) (k : ℕ) (p : Params)
    (h : Q.hilbertdim p < k) :
    eigenvals Q S k p = (Except.error Err.dimensionError, p) ∧
    eigensys Q S k p = (Except.error Err.dimensionError, p) := by
  have hnot : ¬ (1 ≤ k ∧ k ≤ (Q.ham p).length) := by
    intro hc
    unfold QubitSpec.hilbertdim at h
    omega
  constructor
  · unfold eigenvals QubitSpec.evalsCalc eigh
    rw [if_neg hnot]
    rfl
  · unfold eigensys QubitSpec.esysCalc eigh
    rw [if_neg hnot]
    rfl

/-- Witness for C3 at a concrete one-dimensional system asked for two levels. -/
theorem C3_dimension_error_witness :
    eigenvals toySpec diagSolver 2 p0 = (Except.error Err.dimensionError, p0) ∧
    eigensys toySpec diagSolver 2 p0 = (Except.error Err.dimensionError, p0) :=
  C3_dimension_error toySpec diagSolver 2 p0 (by decide)

/-- C1 counterexample: a sweep that raises (the requested count exceeds the
dimension, so the first per-point solve fails) leaves the swept attribute at
the last value set instead of restoring the pre-call value: before the call
`flux = 0`, the call raises, and after the call `flux = 1`. -/
theorem C1_restoration_counterexample :
    pget p0 "flux" = 0 ∧
    (get_spectrum_vs_paramvals toySpec diagSolver "flux" [1] 2 false false 1 p0).1 =
      Except.error Err.dimensionError ∧
    pget (get_spectrum_vs_paramvals toySpec diagSolver "flux" [1] 2 false false 1 p0).2
      "flux" = 1 :=
  ⟨rfl, rfl, rfl⟩

/-- C1 (amended): restoration holds on the success path only: when a sweep or
a dispersion computation returns normally, the swept attribute (and for
dispersion also the induced attribute) equals its pre-call value; when the
call raises, the attribute may be left at the last value set, since no
scoped release discipline exists in the code. -/
theorem C1_restoration_on_success (Q : QubitSpec) (S : EigenSolver)
    (dname name : String) (P : List ℚ) (k pc nc : ℕ) (sg ge : Bool)
    (trans : TransArg) (ls : Option LevelsArg) (p : Params) :
    (∀ d, (get_spectrum_vs_paramvals Q S name P k sg ge nc p).1 = Except.ok d →
      pget (get_spectrum_vs_paramvals Q S name P k sg ge nc p).2 name = pget p name) ∧
    (∀ x, (computeDispersion Q S dname name P trans ls pc p).1 = Except.ok x →
      pget (computeDispersion Q S dname name P trans ls pc p).2 name = pget p name ∧
      pget (computeDispersion Q S dname name P trans ls pc p).2 dname = pget p dname) := by
  constructor
  · intro d hd
    rw [get_spectrum_ok_state Q S name P k sg ge nc p d hd]
  · intro x hx
    rw [computeDispersion_ok_state Q S dname name P trans ls pc p x hx]
    exact ⟨rfl, rfl⟩

/-- Witness for C1 (amended) at a concrete successful sweep and a concrete
successful dispersion computation. -/
theorem C1_restoration_on_success_witness :
    pget (get_spectrum_vs_paramvals toySpec diagSolver "flux" [1] 1 false false 1 p0).2
        "flux" = pget p0 "flux" ∧
    (pget (computeDispersion toySpec diagSolver "ng" "flux" [1] (TransArg.seq [(0, 0)])
        Option.none 1 p0).2 "flux" = pget p0 "flux" ∧
      pget (computeDispersion toySpec diagSolver "ng" "flux" [1] (TransArg.seq [(0, 0)])
        Option.none 1 p0).2 "ng" = pget p0 "ng") := by
  constructor
  · exact (C1_restoration_on_success toySpec diagSolver "ng" "flux" [1] 1 1 1 false false
      (TransArg.seq [(0, 0)]) Option.none p0).1
      { energy_table := EnergyData.table [[0]]
        system_params := []
        param_name := "flux"
        param_vals := [1] } rfl
  · exact (C1_restoration_on_success toySpec diagSolver "ng" "flux" [1] 1 1 1 false false
      (TransArg.seq [(0, 0)]) Option.none p0).2 ([[[0]]], [[0]])
      (by norm_num [computeDispersion, bareSweep, seqMapE, dispersionCell,
        QubitSpec.evalsCalc, eigh, toySpec, diagSolver, p0, pget, pset, linspace01,
        levelsTruthy, TransArg.npMax, npSort, List.insertionSort, npMaxAxis0,
        npMinAxis0, listMax, listMin, collectExcept, Except.map, List.range_succ,
        List.range_zero, List.getD, List.getElem?_cons_zero, List.getElem?_cons_succ,
        List.getElem?_nil, Option.getD, Function.comp, List.replicate, List.head?])

/-- C9 counterexample: on a system of dimension 1 with no operator methods,
`matrixelement_table` with the default `evals_count = 6` and no supplied
eigenvectors fails in the eigensystem step with `DimensionError` before the
operator name is resolved, so the failure is not `UnknownOperatorError` even
though the operator name names no method. -/
theorem C9_unknown_operator_counterexample :
    toySpec.operators "n_operator" = Option.none ∧
    (matrixelement_table toySpec diagSolver "n_operator" Option.none 6 p0).1 =
      Except.error Err.dimensionError ∧
    (matrixelement_table toySpec diagSolver "n_operator" Option.none 6 p0).1 ≠
      Except.error Err.unknownOperatorError := by
  refine ⟨rfl, rfl, by decide⟩

/-- C9 (amended): when the eigenvectors are supplied, or when the eigensystem
step can succeed (`1 ≤ count ≤ hilbertdim`), an operator name that does not
name a registered zero-argument operator method makes `matrixelement_table`
fail with `UnknownOperatorError`, leaving the attribute state unchanged. -/
theorem C9_unknown_operator_amended (Q : QubitSpec) (S : EigenSolver) (opname : String)
    (k : ℕ) (p : Params) (hop : Q.operators opname = Option.none) :
    (∀ V, matrixelement_table Q S opname (Option.some V) k p =
      (Except.error Err.unknownOperatorError, p)) ∧
    (1 ≤ k → k ≤ Q.hilbertdim p →
      matrixelement_table Q S opname Option.none k p =
        (Except.error Err.unknownOperatorError, p)) := by
  constructor
  · intro V
    unfold matrixelement_table
    rw [hop]
  · intro h1 h2
    unfold QubitSpec.hilbertdim at h2
    unfold matrixelement_table QubitSpec.esysCalc eigh
    rw [if_pos ⟨h1, h2⟩]
    simp only [Except.map]
    rw [hop]

/-- Witness for C9 (amended) at a concrete system with no operator methods. -/
theorem C9_unknown_operator_amended_witness :
    matrixelement_table toySpec diagSolver "n_operator" (Option.some [[0]]) 1 p0 =
      (Except.error Err.unknownOperatorError, p0) ∧
    matrixelement_table toySpec diagSolver "n_operator" Option.none 1 p0 =
      (Except.error Err.unknownOperatorError, p0) := by
  constructor
  · exact (C9_unknown_operator_amended toySpec diagSolver "n_operator" 1 p0 rfl).1 [[0]]
  · exact (C9_unknown_operator_amended toySpec diagSolver "n_operator" 1 p0 rfl).2
      (by decide) (by decide)

/-- C2: the sweep outcome does not depend on the worker count (any two worker
counts produce the same result, exactly, in this exact-arithmetic model), and
for the plain eigenvalue sweep the energy-table row at every index `i` is
exactly the single-point solve with the swept attribute set to `P[i]`,
mirroring the input ordering. -/
theorem C2_sweep_ordering (Q : QubitSpec) (S : EigenSolver) (name : String)
    (P : List ℚ) (k : ℕ) (sg ge : Bool) (nc nc2 : ℕ) (p : Params) :
    (get_spectrum_vs_paramvals Q S name P k sg ge nc p).1 =
      (get_spectrum_vs_paramvals Q S name P k sg ge nc2 p).1 ∧
    (∀ d T, (get_spectrum_vs_paramvals Q S name P k false false nc p).1 = Except.ok d →
      d.energy_table = EnergyData.table T →
      ∀ i (hi : i < P.length) (hT : i < T.length),
        Q.evalsCalc S k (pset p name (P.get ⟨i, hi⟩)) = Except.ok (T.get ⟨i, hT⟩)) := by
  constructor
  · rw [get_spectrum_fst, get_spectrum_fst]
  · intro d T hd hT i hi hTi
    rw [get_spectrum_fst] at hd
    cases hsm : spectrumMapped Q S name k false p P with
    | error e => rw [hsm] at hd; cases hd
    | ok pr =>
      rw [hsm] at hd
      rcases pr with ⟨evtab, sttab⟩
      obtain ⟨hcol, -⟩ := spectrumMapped_evals_ok hsm
      simp only [Bool.false_eq_true, if_false, Except.ok.injEq] at hd
      subst hd
      simp only [EnergyData.table.injEq] at hT
      subst hT
      exact collectExcept_map_get _ P evtab hcol i hi hTi

/-- Witness for C2: a two-point sweep over the flux-dependent two-level
system; the first energy-table row equals the single-point solve at the
first parameter value. -/
theorem C2_sweep_ordering_witness :
    toySpec2.evalsCalc diagSolver 2 (pset p0 "flux" 1) = Except.ok [1, 2] := by
  have h := (C2_sweep_ordering toySpec2 diagSolver "flux" [1, 2] 2 false false 1 3 p0).2
    { energy_table := EnergyData.table [[1, 2], [2, 3]]
      system_params := [("flux", 0)]
      param_name := "flux"
      param_vals := [1, 2] } [[1, 2], [2, 3]]
    (by norm_num [get_spectrum_vs_paramvals, sweepMap, seqMapE, evalsForParamval,
      eigenvals, QubitSpec.evalsCalc, eigh, npSort, List.insertionSort,
      List.orderedInsert, toySpec2, diagSolver, p0, pget, pset, get_initdata,
      Except.map, List.range_succ, List.range_zero, List.getD,
      List.getElem?_cons_zero, List.getElem?_cons_succ, List.getElem?_nil,
      Option.getD, collectExcept])
    rfl 0 (by decide) (by decide)
  simpa using h

/-- C4: every produced energy table is non-decreasing by level index at every
parameter point: the single-point solves return ascending eigenvalues, and so
does every row of a sweep energy table, for every argument combination
(ground subtraction and eigenvector retrieval included). -/
theorem C4_ascending_rows (Q : QubitSpec) (S : EigenSolver) :
    (∀ k p evals, (eigenvals Q S k p).1 = Except.ok evals → evals.Sorted (· ≤ ·)) ∧
    (∀ k p evals evecs, (eigensys Q S k p).1 = Except.ok (evals, evecs) →
      evals.Sorted (· ≤ ·)) ∧
    (∀ name P k sg ge nc p d T,
      (get_spectrum_vs_paramvals Q S name P k sg ge nc p).1 = Except.ok d →
      d.energy_table = EnergyData.table T →
      ∀ row ∈ T, row.Sorted (· ≤ ·)) := by
  refine ⟨?_, ?_, ?_⟩
  · intro k p evals h
    exact evalsCalc_ok_sorted h
  · intro k p evals evecs h
    exact esysCalc_ok_sorted h
  · intro name P k sg ge nc p d T hd hT row hrow
    rw [get_spectrum_fst] at hd
    cases hsm : spectrumMapped Q S name k ge p P with
    | error e => rw [hsm] at hd; cases hd
    | ok pr =>
      rw [hsm] at hd
      rcases pr with ⟨evtab, sttab⟩
      obtain ⟨-, hrows⟩ := spectrumMapped_ok_rows hsm
      simp only [Except.ok.injEq] at hd
      subst hd
      simp only [EnergyData.table.injEq] at hT
      subst hT
      cases sg with
      | false =>
        simp only [Bool.false_eq_true, if_false] at hrow
        exact (hrows row hrow).1
      | true =>
        simp only [if_true] at hrow
        rw [List.mem_map] at hrow
        obtain ⟨row0, hrow0, heq⟩ := hrow
        subst heq
        exact sorted_map_sub (hrows row0 hrow0).1 _

/-- Witness for C4 at a concrete single-point solve of the flux-dependent
two-level system. -/
theorem C4_ascending_rows_witness : ([1, 2] : List ℚ).Sorted (· ≤ ·) :=
  (C4_ascending_rows toySpec2 diagSolver).1 2 (pset p0 "flux" 1) [1, 2]
    (by norm_num [eigenvals, QubitSpec.evalsCalc, eigh, npSort, List.insertionSort,
      List.orderedInsert, toySpec2, diagSolver, p0, pget, pset, Except.map,
      List.range_succ, List.range_zero, List.getD, List.getElem?_cons_zero,
      List.getElem?_cons_succ, List.getElem?_nil, Option.getD])

/-- C5: comparing a sweep run with `subtract_ground=True` against the same
run without it: the two tables have the same length and, at every parameter
point, the subtracted row has first entry exactly `0`, the first entry of the
original row is the lowest energy of that row, and every entry of the
subtracted row is the original entry minus that lowest original energy. -/
theorem C5_ground_subtraction (Q : QubitSpec) (S : EigenSolver) (name : String)
    (P : List ℚ) (k : ℕ) (ge : Bool) (nc : ℕ) (p : Params)
    (d d0 : SpectrumData) (T T0 : List (List ℚ))
    (h : (get_spectrum_vs_paramvals Q S name P k true ge nc p).1 = Except.ok d)
    (h0 : (get_spectrum_vs_paramvals Q S name P k false ge nc p).1 = Except.ok d0)
    (hT : d.energy_table = EnergyData.table T)
    (hT0 : d0.energy_table = EnergyData.table T0) :
    T.length = T0.length ∧
    ∀ i, i < T.length →
      (T.getD i []).getD 0 0 = 0 ∧
      (∀ x ∈ T0.getD i [], (T0.getD i []).getD 0 0 ≤ x) ∧
      ∀ j, j < (T.getD i []).length →
        (T.getD i []).getD j 0 = (T0.getD i []).getD j 0 - (T0.getD i []).getD 0 0 := by
  rw [get_spectrum_fst] at h h0
  cases hsm : spectrumMapped Q S name k ge p P with
  | error e => rw [hsm] at h; cases h
  | ok pr =>
    rw [hsm] at h h0
    rcases pr with ⟨evtab, sttab⟩
    obtain ⟨-, hrows⟩ := spectrumMapped_ok_rows hsm
    simp only [if_true, Bool.false_eq_true, if_false, Except.ok.injEq] at h h0
    subst h
    subst h0
    simp only [EnergyData.table.injEq] at hT hT0
    subst hT
    subst hT0
    constructor
    · simp
    · intro i hi
      have hi0 : i < evtab.length := by simpa using hi
      have hmem : evtab.getD i [] ∈ evtab := getD_mem evtab i hi0 []
      obtain ⟨hsorted, hklen, hk1⟩ := hrows (evtab.getD i []) hmem
      have hTget : (evtab.map (fun row => row.map (· - row.headD 0))).getD i [] =
          (evtab.getD i []).map (· - (evtab.getD i []).headD 0) := by
        rw [getD_map _ _ i hi0 [] []]
      have hgetD0 : (evtab.getD i []).getD 0 0 = (evtab.getD i []).headD 0 := by
        cases hc : evtab.getD i [] with
        | nil => rfl
        | cons y ys => rfl
      refine ⟨?_, ?_, ?_⟩
      · rw [hTget]
        cases hc : evtab.getD i [] with
        | nil => rfl
        | cons y ys => simp
      · intro x hx
        rw [hgetD0]
        exact sorted_headD_le hsorted hx
      · intro j hj
        rw [hTget] at hj ⊢
        rw [List.length_map] at hj
        rw [getD_map _ _ j hj 0 0, hgetD0]

/-- Witness for C5 at a concrete one-point sweep of the flux-dependent
two-level system: the ground-subtracted first row has first entry zero. -/
theorem C5_ground_subtraction_witness : (([[0, 1]] : List (List ℚ)).getD 0 []).getD 0 0 = 0 := by
  have h := (C5_ground_subtraction toySpec2 diagSolver "flux" [1] 2 false 1 p0
    { energy_table := EnergyData.table [[0, 1]]
      system_params := [("flux", 0)]
      param_name := "flux"
      param_vals := [1] }
    { energy_table := EnergyData.table [[1, 2]]
      system_params := [("flux", 0)]
      param_name := "flux"
      param_vals := [1] } [[0, 1]] [[1, 2]]
    (by norm_num [get_spectrum_vs_paramvals, sweepMap, seqMapE, evalsForParamval,
      eigenvals, QubitSpec.evalsCalc, eigh, npSort, List.insertionSort,
      List.orderedInsert, toySpec2, diagSolver, p0, pget, pset, get_initdata,
      Except.map, List.range_succ, List.range_zero, List.getD,
      List.getElem?_cons_zero, List.getElem?_cons_succ, List.getElem?_nil,
      Option.getD, collectExcept])
    (by norm_num [get_spectrum_vs_paramvals, sweepMap, seqMapE, evalsForParamval,
      eigenvals, QubitSpec.evalsCalc, eigh, npSort, List.insertionSort,
      List.orderedInsert, toySpec2, diagSolver, p0, pget, pset, get_initdata,
      Except.map, List.range_succ, List.range_zero, List.getD,
      List.getElem?_cons_zero, List.getElem?_cons_succ, List.getElem?_nil,
      Option.getD, collectExcept])
    rfl rfl).2 0 (by decide)
  exact h.1

/-- C7: argument-normalization equivalence: calling the dispersion entry
point with `levels` given as a bare int behaves identically to calling it
with the singleton tuple, and calling it with `transitions` given as a
single pair behaves identically to the singleton-sequence form, for every
combination of the remaining arguments (full result equality, attribute
state included). -/
theorem C7_argument_normalization (Q : QubitSpec) (S : EigenSolver)
    (dname pname : String) (P : List ℚ) (rp : Option String) (pc : ℕ) (p : Params) :
    (∀ trans n,
      get_dispersion_vs_paramvals Q S dname pname P rp trans
          (Option.some (LevelsArg.int n)) pc p =
        get_dispersion_vs_paramvals Q S dname pname P rp trans
          (Option.some (LevelsArg.tup [n])) pc p) ∧
    (∀ ij ls,
      get_dispersion_vs_paramvals Q S dname pname P rp (TransArg.single ij) ls pc p =
        get_dispersion_vs_paramvals Q S dname pname P rp (TransArg.seq [ij]) ls pc p) := by
  constructor
  · intro trans n
    cases trans with
    | seq ts => rfl
    | single ij =>
      unfold get_dispersion_vs_paramvals dispNorm
      dsimp only
      rw [computeDispersion_trans_irrel Q S dname pname P (TransArg.single ij)
        (TransArg.seq [ij]) [n] (by simp) pc p]
      rfl
  · intro ij ls
    cases ls with
    | none => rfl
    | some l =>
      cases l with
      | tup ls2 => rfl
      | int n =>
        unfold get_dispersion_vs_paramvals dispNorm
        dsimp only
        rw [computeDispersion_trans_irrel Q S dname pname P (TransArg.single ij)
          (TransArg.seq [ij]) [n] (by simp) pc p]
        rfl

/-- C10: with `ref_param` given, after a successful dispersion call the
caller-supplied `param_vals` buffer holds exactly the original values divided
by the value of the reference attribute (whose post-call value equals its
pre-call value, the attributes having been restored before the division), and
the returned container carries these divided values together with the
combined name `param_name/ref_param`; with `ref_param = None` the buffer is
not modified. -/
theorem C10_ref_param_mutation (Q : QubitSpec) (S : EigenSolver)
    (dname pname : String) (P : List ℚ) (trans : TransArg) (ls : Option LevelsArg)
    (pc : ℕ) (p : Params) :
    (∀ r sd buf,
      (get_dispersion_vs_paramvals Q S dname pname P (Option.some r) trans ls pc p).1 =
        Except.ok (sd, buf) →
      buf = P.map (· / pget p r) ∧ sd.param_vals = buf ∧
        sd.param_name = pname ++ "/" ++ r) ∧
    (∀ sd buf,
      (get_dispersion_vs_paramvals Q S dname pname P Option.none trans ls pc p).1 =
        Except.ok (sd, buf) →
      buf = P ∧ sd.param_vals = P ∧ sd.param_name = pname) := by
  rcases hnm : dispNorm ls trans with ⟨ls2, t2⟩
  constructor
  · intro r sd buf h
    unfold get_dispersion_vs_paramvals at h
    rw [hnm] at h
    dsimp only at h
    rcases hcd : computeDispersion Q S dname pname P t2 ls2 pc p with ⟨r1, p1⟩
    rw [hcd] at h
    cases r1 with
    | error e =>
      have hcontra : Except.error e = Except.ok (sd, buf) := h
      cases hcontra
    | ok x =>
      rcases x with ⟨ee, disp⟩
      have hst : p1 = p := by
        have h2 := computeDispersion_ok_state Q S dname pname P t2 ls2 pc p (ee, disp)
          (by rw [hcd])
        rw [hcd] at h2
        exact h2
      subst hst
      dsimp only at h
      simp only [Except.ok.injEq, Prod.mk.injEq] at h
      obtain ⟨hsd, hbuf⟩ := h
      subst hsd
      subst hbuf
      exact ⟨rfl, rfl, rfl⟩
  · intro sd buf h
    unfold get_dispersion_vs_paramvals at h
    rw [hnm] at h
    dsimp only at h
    rcases hcd : computeDispersion Q S dname pname P t2 ls2 pc p with ⟨r1, p1⟩
    rw [hcd] at h
    cases r1 with
    | error e =>
      have hcontra : Except.error e = Except.ok (sd, buf) := h
      cases hcontra
    | ok x =>
      rcases x with ⟨ee, disp⟩
      dsimp only at h
      simp only [Except.ok.injEq, Prod.mk.injEq] at h
      obtain ⟨hsd, hbuf⟩ := h
      subst hsd
      subst hbuf
      exact ⟨rfl, rfl, rfl⟩

/-- Witness for C10 at a concrete successful dispersion call with reference
parameter `EC = 2`: the buffer after the call is the original values divided
by the reference value. -/
theorem C10_ref_param_mutation_witness :
    ([1 / 2] : List ℚ) = [1].map (· / pget pEC "EC") := by
  have h := (C10_ref_param_mutation toySpec diagSolver "ng" "flux" [1]
    (TransArg.seq [(0, 0)]) Option.none 1 pEC).1 "EC"
    { energy_table := EnergyData.cube [[[0]]]
      system_params := []
      param_name := "flux/EC"
      param_vals := [1 / 2]
      labels := SpecLabels.transitions (TransArg.seq [(0, 0)])
      dispersion := Option.some (List.transpose [[0]]) } [1 / 2]
    (by
      norm_num [get_dispersion_vs_paramvals, dispNorm, computeDispersion, bareSweep,
        seqMapE, dispersionCell, QubitSpec.evalsCalc, eigh, toySpec, diagSolver, pEC,
        pget, pset, linspace01, levelsTruthy, TransArg.npMax, npSort,
        List.insertionSort, npMaxAxis0, npMinAxis0, listMax, listMin, collectExcept,
        Except.map, List.range_succ, List.range_zero, List.getD,
        List.getElem?_cons_zero, List.getElem?_cons_succ, List.getElem?_nil,
        Option.getD, Function.comp, List.replicate, List.head?, get_initdata]
      constructor
      · rfl
      · show (2 : ℚ)⁻¹ = 1 / 2
        norm_num)
  exact h.1

/-- C6: for every requested transition `(i, j)` and swept index, the
dispersion computed by `_compute_dispersion` is the spread (maximum minus
minimum over the induced samples) of `E_i - E_j` over the returned
bare-energy cube; when `levels` is supplied (nonempty) it takes priority over
`transitions` (the result does not depend on the transitions argument), the
dispersion for a requested level is the spread of that bare level, and it is
exactly `0` whenever that level is invariant over the induced samples. -/
theorem C6_dispersion_formula (Q : QubitSpec) (S : EigenSolver) (dname pname : String)
    (P : List ℚ) (pc : ℕ) (p : Params) :
    (∀ ts cube disp,
      (computeDispersion Q S dname pname P (TransArg.seq ts) Option.none pc p).1 =
        Except.ok (cube, disp) →
      ∀ idx (hidx : idx < ts.length) j, j < P.length →
        (disp.getD idx []).getD j 0 =
          listMax (cube.map fun plane =>
            (plane.getD j []).getD (ts.get ⟨idx, hidx⟩).1 0 -
            (plane.getD j []).getD (ts.get ⟨idx, hidx⟩).2 0) -
          listMin (cube.map fun plane =>
            (plane.getD j []).getD (ts.get ⟨idx, hidx⟩).1 0 -
            (plane.getD j []).getD (ts.get ⟨idx, hidx⟩).2 0)) ∧
    (∀ trans lvls cube disp,
      (computeDispersion Q S dname pname P trans
          (Option.some (LevelsArg.tup lvls)) pc p).1 = Except.ok (cube, disp) →
      ∀ idx (hidx : idx < lvls.length) j, j < P.length →
        (disp.getD idx []).getD j 0 =
          listMax (cube.map fun plane =>
            (plane.getD j []).getD (lvls.get ⟨idx, hidx⟩) 0) -
          listMin (cube.map fun plane =>
            (plane.getD j []).getD (lvls.get ⟨idx, hidx⟩) 0)) ∧
    (∀ t1 t2 lvls, lvls ≠ [] →
      computeDispersion Q S dname pname P t1 (Option.some (LevelsArg.tup lvls)) pc p =
        computeDispersion Q S dname pname P t2 (Option.some (LevelsArg.tup lvls)) pc p) ∧
    (∀ trans lvls cube disp,
      (computeDispersion Q S dname pname P trans
          (Option.some (LevelsArg.tup lvls)) pc p).1 = Except.ok (cube, disp) →
      ∀ idx (hidx : idx < lvls.length) j, j < P.length → ∀ c : ℚ,
        (∀ plane ∈ cube, (plane.getD j []).getD (lvls.get ⟨idx, hidx⟩) 0 = c) →
        (disp.getD idx []).getD j 0 = 0) := by
  have key2 : ∀ trans lvls cube disp,
      (computeDispersion Q S dname pname P trans
          (Option.some (LevelsArg.tup lvls)) pc p).1 = Except.ok (cube, disp) →
      ∀ idx (hidx : idx < lvls.length) j, j < P.length →
        (disp.getD idx []).getD j 0 =
          listMax (cube.map fun plane =>
            (plane.getD j []).getD (lvls.get ⟨idx, hidx⟩) 0) -
          listMin (cube.map fun plane =>
            (plane.getD j []).getD (lvls.get ⟨idx, hidx⟩) 0) := by
    intro trans lvls cube disp h idx hidx j hj
    obtain ⟨hcube, hdisp⟩ := computeDispersion_ok_levels h
    obtain ⟨-, hplanes⟩ := bareCube_ok_shape hcube
    subst hdisp
    rw [getD_map _ lvls idx hidx 0 []]
    rw [← getD_get lvls idx hidx 0]
    by_cases hne : cube = []
    · subst hne
      simp [npMaxAxis0, npMinAxis0, listMax, listMin]
    · exact spread_getD cube _ P.length j hplanes hj hne
  refine ⟨?_, key2, ?_, ?_⟩
  · intro ts cube disp h idx hidx j hj
    obtain ⟨hcube, hdisp⟩ := computeDispersion_ok_trans h
    obtain ⟨-, hplanes⟩ := bareCube_ok_shape hcube
    subst hdisp
    rw [getD_map _ ts idx hidx (0, 0) []]
    rw [← getD_get ts idx hidx (0, 0)]
    by_cases hne : cube = []
    · subst hne
      simp [npMaxAxis0, npMinAxis0, listMax, listMin]
    · exact spread_getD cube _ P.length j hplanes hj hne
  · intro t1 t2 lvls hlvls
    exact computeDispersion_trans_irrel Q S dname pname P t1 t2 lvls hlvls pc p
  · intro trans lvls cube disp h idx hidx j hj c hconst
    rw [key2 trans lvls cube disp h idx hidx j hj]
    by_cases hne : cube = []
    · subst hne
      simp [listMax, listMin]
    · have hmapne : (cube.map fun plane =>
          (plane.getD j []).getD (lvls.get ⟨idx, hidx⟩) 0) ≠ [] := by
        simp [hne]
      have hall : ∀ x ∈ cube.map fun plane =>
          (plane.getD j []).getD (lvls.get ⟨idx, hidx⟩) 0, x = c := by
        intro x hx
        rw [List.mem_map] at hx
        obtain ⟨plane, hp, rfl⟩ := hx
        exact hconst plane hp
      rw [listMax_const hmapne hall, listMin_const hmapne hall, sub_self]

/-- Witness for C6 at a concrete one-cell dispersion computation on the
two-level system, transition `(0, 1)`. -/
theorem C6_dispersion_formula_witness :
    (([[0]] : List (List ℚ)).getD 0 []).getD 0 0 =
      listMax ([[[1, 2]]].map fun plane : List (List ℚ) =>
        (plane.getD 0 []).getD 0 0 - (plane.getD 0 []).getD 1 0) -
      listMin ([[[1, 2]]].map fun plane : List (List ℚ) =>
        (plane.getD 0 []).getD 0 0 - (plane.getD 0 []).getD 1 0) := by
  have h := (C6_dispersion_formula toySpec2 diagSolver "ng" "flux" [1] 1 p0).1
    [(0, 1)] [[[1, 2]]] [[0]]
    (by
      norm_num [computeDispersion, bareSweep, seqMapE, dispersionCell,
        QubitSpec.evalsCalc, eigh, toySpec2, diagSolver, p0, pget, pset, linspace01,
        levelsTruthy, TransArg.npMax, npSort, List.insertionSort, List.orderedInsert,
        npMaxAxis0, npMinAxis0, listMax, listMin, collectExcept, Except.map,
        List.range_succ, List.range_zero, List.getD, List.getElem?_cons_zero,
        List.getElem?_cons_succ, List.getElem?_nil, Option.getD, Function.comp,
        List.replicate, List.head?])
    0 (by decide) 0 (by decide)
  simpa using h

/-- C8: a successful `get_matelements_vs_paramvals` call returns exactly the
SpectrumData produced by the eigenvector sweep with a matrix-element table
attached; the table has shape `(len(param_vals), evals_count, evals_count)`;
the row at parameter index `idx` is the matrix-element table of the named
operator taken in the eigenvectors computed with the swept attribute set to
`P[idx]`; and every row of the table is Hermitian-conjugate-symmetric in the
two level indices whenever the operator matrix is Hermitian and the
eigenvector dimensions match the operator dimension. -/
theorem C8_matrix_elements (Q : QubitSpec) (S : EigenSolver) (opname name : String)
    (P : List ℚ) (k nc : ℕ) (p : Params) (d : SpectrumData)
    (h : (get_matelements_vs_paramvals Q S opname name P k nc p).1 = Except.ok d) :
    ∃ d0 M, (get_spectrum_vs_paramvals Q S name P k false true nc p).1 = Except.ok d0 ∧
      d = { d0 with matrixelem_table := Option.some M } ∧
      M.length = P.length ∧
      (∀ mrow ∈ M, mrow.length = k ∧ ∀ r ∈ mrow, r.length = k) ∧
      (∀ f, Q.operators opname = Option.some f →
        (∀ st, d0.state_table = Option.some st →
          (∀ idx (hidx : idx < P.length) evals evecs,
            Q.esysCalc S k (pset p name (P.get ⟨idx, hidx⟩)) = Except.ok (evals, evecs) →
            M.getD idx [] = get_matrixelement_table (f p) evecs) ∧
          (∀ n, (∀ a b, a < n → b < n →
              ((f p).getD b []).getD a 0 = star (((f p).getD a []).getD b 0)) →
            ∀ idx, idx < P.length →
              (∀ v ∈ st.getD idx [], v.length = n) →
              ∀ i j, i < (st.getD idx []).length → j < (st.getD idx []).length →
                ((M.getD idx []).getD j []).getD i 0 =
                  star (((M.getD idx []).getD i []).getD j 0)))) := by
  unfold get_matelements_vs_paramvals at h
  rcases hsp : get_spectrum_vs_paramvals Q S name P k false true nc p with ⟨r0, q1⟩
  rw [hsp] at h
  cases r0 with
  | error e =>
    have hcontra : Except.error e = Except.ok d := h
    cases hcontra
  | ok d0 =>
    have hq1 : q1 = p := by
      have h2 := get_spectrum_ok_state Q S name P k false true nc p d0 (by rw [hsp])
      rw [hsp] at h2
      exact h2
    subst q1
    have hsq1 : (get_spectrum_vs_paramvals Q S name P k false true nc p).1 =
        Except.ok d0 := by rw [hsp]
    rw [get_spectrum_fst] at hsq1
    cases hsm : spectrumMapped Q S name k true p P with
    | error e => rw [hsm] at hsq1; cases hsq1
    | ok pr =>
      rw [hsm] at hsq1
      rcases pr with ⟨evtab, sttab⟩
      obtain ⟨md, hcol, -, hstt⟩ := spectrumMapped_esys_ok hsm
      subst hstt
      simp only [Except.ok.injEq] at hsq1
      subst hsq1
      dsimp only at h
      simp only [Option.getD_some, Bool.false_eq_true, if_false] at h
      -- facts about the eigenvector table
      have hmdlen : md.length = P.length := by
        have := collectExcept_ok_length hcol
        simpa using this
      have hsttlen : (md.map Prod.snd).length = P.length := by
        simpa using hmdlen
      have hsttk : ∀ evecs ∈ md.map Prod.snd, evecs.length = k := by
        intro evecs hmem
        rw [List.mem_map] at hmem
        obtain ⟨pair, hpair, heq⟩ := hmem
        have hmem2 := collectExcept_ok_mem hcol pair hpair
        rw [List.mem_map] at hmem2
        obtain ⟨v, -, heq2⟩ := hmem2
        rcases pair with ⟨evals, evecs2⟩
        cases heq
        exact esysCalc_ok_snd_length heq2
      cases hrows : collectExcept ((List.range P.length).map fun idx =>
          (matrixelement_table Q S opname
            (Option.some ((md.map Prod.snd).getD idx [])) k p).1) with
      | error e =>
        rw [hrows] at h
        have hcontra : Except.error e = Except.ok d := h
        cases hcontra
      | ok M =>
        rw [hrows] at h
        have hd : d = { energy_table := EnergyData.table evtab
                        system_params := get_initdata Q p
                        param_name := name
                        param_vals := P
                        state_table := Option.some (md.map Prod.snd)
                        matrixelem_table := Option.some M } := by
          have hcontra : Except.ok
              ({ energy_table := EnergyData.table evtab
                 system_params := get_initdata Q p
                 param_name := name
                 param_vals := P
                 state_table := Option.some (md.map Prod.snd)
                 matrixelem_table := Option.some M } : SpectrumData) = Except.ok d := h
          cases hcontra
          rfl
        have hMlen : M.length = P.length := by
          have := collectExcept_ok_length hrows
          simpa using this
        have hMrowGeneric : ∀ idx (hidx : idx < P.length),
            (matrixelement_table Q S opname
              (Option.some ((md.map Prod.snd).getD idx [])) k p).1 =
              Except.ok (M.getD idx []) := by
          intro idx hidx
          have hMi : idx < M.length := by rw [hMlen]; exact hidx
          have hg := collectExcept_map_get _ (List.range P.length) M hrows idx
            (by simpa using hidx) hMi
          rw [List.get_eq_getElem, List.getElem_range] at hg
          rw [getD_get M idx hMi]
          exact hg
        refine ⟨{ energy_table := EnergyData.table evtab
                  system_params := get_initdata Q p
                  param_name := name
                  param_vals := P
                  state_table := Option.some (md.map Prod.snd) }, M, ?_, ?_, hMlen, ?_, ?_⟩
        · rfl
        · exact hd
        · intro mrow hmrow
          have hmem := collectExcept_ok_mem hrows mrow hmrow
          rw [List.mem_map] at hmem
          obtain ⟨idx, hidxmem, heq⟩ := hmem
          rw [List.mem_range] at hidxmem
          cases hop : Q.operators opname with
          | none =>
            unfold matrixelement_table at heq
            rw [hop] at heq
            cases heq
          | some f =>
            rw [matrixelement_table_some Q S opname _ k p f hop] at heq
            simp only [Except.ok.injEq] at heq
            subst heq
            have hvlen : ((md.map Prod.snd).getD idx []).length = k :=
              hsttk _ (getD_mem _ idx (by rw [hsttlen]; exact hidxmem) [])
            constructor
            · rw [get_matrixelement_table_length, hvlen]
            · intro r hr
              rw [get_matrixelement_table_row_length _ _ r hr, hvlen]
        · intro f hop
          have hMrow : ∀ idx (hidx : idx < P.length),
              M.getD idx [] = get_matrixelement_table (f p)
                ((md.map Prod.snd).getD idx []) := by
            intro idx hidx
            have hg := hMrowGeneric idx hidx
            rw [matrixelement_table_some Q S opname _ k p f hop] at hg
            simp only [Except.ok.injEq] at hg
            exact hg.symm
          intro st hst
          simp only [Option.some.injEq] at hst
          subst hst
          constructor
          · intro idx hidx evals evecs hesys
            have hmd : idx < md.length := by rw [hmdlen]; exact hidx
            have hpair := collectExcept_map_get _ P md hcol idx hidx hmd
            rw [hesys] at hpair
            have hvec : (md.map Prod.snd).getD idx [] = evecs := by
              rw [getD_get _ idx (by rw [hsttlen]; exact hidx)]
              rw [List.get_eq_getElem, List.getElem_map]
              have hmd2 : md[idx] = (evals, evecs) := by
                have h3 := hpair.symm
                simp only [Except.ok.injEq] at h3
                rw [List.get_eq_getElem] at h3
                exact h3
              rw [hmd2]
            rw [hMrow idx hidx, hvec]
          · intro n hherm idx hidx hvlen i j hi hj
            rw [hMrow idx hidx]
            exact get_matrixelement_table_herm (f p) ((md.map Prod.snd).getD idx []) n
              hvlen hherm i j hi hj

/-- Witness for C8 at a concrete one-point eigenvector sweep of the two-level
system with the Hermitian operator method `n_operator`. -/
theorem C8_matrix_elements_witness :
    ∃ d0 M,
      (get_spectrum_vs_paramvals toySpec2 diagSolver "flux" [0] 2 false true 1 p0).1 =
        Except.ok d0 ∧
      ({ energy_table := EnergyData.table [[0, 1]]
         system_params := [("flux", 0)]
         param_name := "flux"
         param_vals := [0]
         state_table := Option.some [[[0, 0], [0, 0]]]
         matrixelem_table := Option.some [[[0, 0], [0, 0]]] } : SpectrumData) =
        { d0 with matrixelem_table := Option.some M } ∧
      M.length = ([0] : List ℚ).length ∧
      (∀ mrow ∈ M, mrow.length = 2 ∧ ∀ r ∈ mrow, r.length = 2) ∧
      (∀ f, toySpec2.operators "n_operator" = Option.some f →
        (∀ st, d0.state_table = Option.some st →
          (∀ idx (hidx : idx < ([0] : List ℚ).length) evals evecs,
            toySpec2.esysCalc diagSolver 2 (pset p0 "flux" (([0] : List ℚ).get ⟨idx, hidx⟩)) =
              Except.ok (evals, evecs) →
            M.getD idx [] = get_matrixelement_table (f p0) evecs) ∧
          (∀ n, (∀ a b, a < n → b < n →
              ((f p0).getD b []).getD a 0 = star (((f p0).getD a []).getD b 0)) →
            ∀ idx, idx < ([0] : List ℚ).length →
              (∀ v ∈ st.getD idx [], v.length = n) →
              ∀ i j, i < (st.getD idx []).length → j < (st.getD idx []).length →
                ((M.getD idx []).getD j []).getD i 0 =
                  star (((M.getD idx []).getD i []).getD j 0)))) :=
  C8_matrix_elements toySpec2 diagSolver "n_operator" "flux" [0] 2 1 p0
    { energy_table := EnergyData.table [[0, 1]]
      system_params := [("flux", 0)]
      param_name := "flux"
      param_vals := [0]
      state_table := Option.some [[[0, 0], [0, 0]]]
      matrixelem_table := Option.some [[[0, 0], [0, 0]]] }
    (by
      norm_num [get_matelements_vs_paramvals, get_spectrum_vs_paramvals, sweepMap,
        seqMapE, esysForParamval, eigensys, QubitSpec.esysCalc, eigh,
        order_eigensystem, keyLe, List.insertionSort, List.orderedInsert,
        recast_esys_mapdata, matrixelement_table, get_matrixelement_table, innerElem,
        toySpec2, diagSolver, p0, pget, pset, get_initdata, collectExcept, Except.map,
        List.range_succ, List.range_zero, List.getD, List.getElem?_cons_zero,
        List.getElem?_cons_succ, List.getElem?_nil, Option.getD, List.replicate,
        Finset.sum_range_succ, Finset.sum_range_zero])
